import Mathlib

/-!
# Rigid3D GlUtils: MeshConsolidator and Frustum

A shallow embedding of `src/utils/GlUtils/MeshConsolidator.cpp` and
`src/utils/GlUtils/Frustum.cpp`, followed by theorems about the embedded code.

Conventions of the embedding

* An `unordered_map` is a list of key/value pairs with pairwise distinct keys.
  The order of the list is the order in which the map is iterated; the C++
  standard leaves that order to the implementation, so statements about a map
  are made for every list with distinct keys.  The list constructors fill a
  map from the constructor list; the order in which that map is then iterated
  is an input of the embedding (an `IterationOrder`).
* A `const char *` key is compared by address, so a mesh identifier is the
  address, a natural number.
* Byte counts, float counts and vertex counts are natural numbers: the sizes
  are those of buffers resident in memory, and the arithmetic of
  `processMeshes` and `consolidateMesh` on them is taken without wrap-around.
* A `float *` into a buffer is the number of floats between it and the head of
  the buffer; a buffer is a list of bytes, a byte of freshly allocated memory is
  indeterminate (`none`).
* `malloc` may fail; whether each of the two calls in `processMeshes` succeeds
  is an input of the embedding.
* `glm::perspective` and `glm::ortho` are functions of the GLM library; they are
  parameters of the Frustum embedding, as is the float type.
-/

namespace GlUtils

/-! ## Data model -/

/-- Mesh identifier: the `const char *` key of the maps, compared by address. -/
abbrev MeshId := Nat

/-- One byte of memory. -/
abbrev Byte := Nat

/-- A block of heap memory; `none` is a byte that has never been written. -/
abbrev Buffer := List (Option Byte)

/-- Modelled from the spec: `num_floats_per_vertex` is declared in
`MeshConsolidator.hpp`, which is absent; the spec gives a vertex position
three floats (a position buffer of N vertices is N×3 floats). -/
def num_floats_per_vertex : Nat := 3

/-- The value of `sizeof(float)`. -/
def sizeof_float : Nat := 4

/-- Modelled from the spec: the `Mesh` class (`Mesh.hpp` is absent) exposes a
byte view of its position data, a byte view of its normal data, their byte
counts and its vertex count.  The three fields are what the accessors called
by `MeshConsolidator` return.  The spec's tie between them, that a mesh of N
vertices owns N×3 floats of positions and N×3 floats of normals, is stated by
`Mesh.PositionsFollowSpec` and `Mesh.NormalsFollowSpec`; statements about the
meshes of the spec assume them, and statements made for any byte counts do
not. -/
structure Mesh where
  vertexPositionData : List Byte
  vertexNormalData : List Byte
  numVertexPositions : Nat
deriving DecidableEq, Repr

namespace Mesh

/-- The data behind `Mesh::getVertexPositionDataPtr()`. -/
def getVertexPositionDataPtr (mesh : Mesh) : List Byte := mesh.vertexPositionData

/-- The data behind `Mesh::getVertexNormalDataPtr()`. -/
def getVertexNormalDataPtr (mesh : Mesh) : List Byte := mesh.vertexNormalData

/-- The result of `Mesh::getNumVertexPositionBytes()`: the size of the position view. -/
def getNumVertexPositionBytes (mesh : Mesh) : Nat := mesh.vertexPositionData.length

/-- The result of `Mesh::getNumVertexNormalBytes()`: the size of the normal view. -/
def getNumVertexNormalBytes (mesh : Mesh) : Nat := mesh.vertexNormalData.length

/-- The result of `Mesh::getNumVertexPositions()`. -/
def getNumVertexPositions (mesh : Mesh) : Nat := mesh.numVertexPositions

/-- Modelled from the spec: a mesh of N vertices owns a position buffer of
N×3 floats. -/
def PositionsFollowSpec (mesh : Mesh) : Prop :=
  mesh.getNumVertexPositionBytes =
    mesh.getNumVertexPositions * (num_floats_per_vertex * sizeof_float)

/-- Modelled from the spec: a mesh of N vertices owns a normal buffer of
N×3 floats. -/
def NormalsFollowSpec (mesh : Mesh) : Prop :=
  mesh.getNumVertexNormalBytes =
    mesh.getNumVertexPositions * (num_floats_per_vertex * sizeof_float)

instance (mesh : Mesh) : Decidable mesh.PositionsFollowSpec :=
  inferInstanceAs (Decidable (_ = _))

instance (mesh : Mesh) : Decidable mesh.NormalsFollowSpec :=
  inferInstanceAs (Decidable (_ = _))

end Mesh

/-- The value type `BatchInfo(startIndex, numIndices)`. -/
structure BatchInfo where
  startIndex : Nat
  numIndices : Nat
deriving DecidableEq, Repr

/-- An `unordered_map` keyed by mesh identifier, in iteration order. -/
abbrev UnorderedMap (α : Type) := List (MeshId × α)

namespace UnorderedMap

/-- The keys of the map, in iteration order. -/
def keys {α : Type} (m : UnorderedMap α) : List MeshId := m.map Prod.fst

/-- The statement `m[key] = val`: the value of an existing key is replaced,
a new key gets a new entry. -/
def assign {α : Type} (key : MeshId) (val : α) : UnorderedMap α → UnorderedMap α
  | [] => [(key, val)]
  | (k, v) :: rest =>
    if k = key then (key, val) :: rest else (k, v) :: assign key val rest

/-- The value stored under `key`, when there is one. -/
def find {α : Type} (key : MeshId) : UnorderedMap α → Option α
  | [] => none
  | (k, v) :: rest => if k = key then some v else find key rest

end UnorderedMap

/-- What stops `processMeshes`: the exception it throws, or a `memcpy` whose
destination is null or not inside the allocation (undefined behaviour). -/
inductive Failure where
  | GlUtilsException (what : String)
  | invalidWrite
deriving DecidableEq, Repr

/-- The message of the exception thrown by `processMeshes`. -/
def allocationMessage : String :=
  "Unable to allocate system memory within method MeshConsolidator::processMeshes"

/-- The data members of `MeshConsolidator`.  A head pointer is the buffer it
owns (`none` for a null pointer); a tail pointer is its distance from the head
in floats. -/
structure MeshConsolidator where
  totalPositionBytes : Nat
  totalNormalBytes : Nat
  vertexPositionDataPtr_head : Option Buffer
  vertexPositionDataPtr_tail : Nat
  normalDataPtr_head : Option Buffer
  normalDataPtr_tail : Nat
  batchInfoMap : UnorderedMap BatchInfo
deriving DecidableEq, Repr

/-- The call `malloc(size)`: a fresh block of `size` indeterminate bytes when
the allocation succeeds (a non-null pointer, also for size 0), or null when it
fails. -/
def malloc (succeeds : Bool) (size : Nat) : Option Buffer :=
  if succeeds then some (List.replicate size none) else none

/-- The call `memcpy(dst + byteOffset, src, n)` on the block `dst`. -/
def memcpy (dst : Option Buffer) (byteOffset : Nat) (src : List Byte) (n : Nat) :
    Except Failure Buffer :=
  match dst with
  | none => .error .invalidWrite
  | some buf =>
    if byteOffset + n ≤ buf.length then
      .ok (buf.take byteOffset ++ (src.take n).map some ++ buf.drop (byteOffset + n))
    else
      .error .invalidWrite

namespace MeshConsolidator

/-- The member initialisers of the constructors: both totals zero, both
buffers null, an empty batch table. -/
def init : MeshConsolidator :=
  { totalPositionBytes := 0
    totalNormalBytes := 0
    vertexPositionDataPtr_head := none
    vertexPositionDataPtr_tail := 0
    normalDataPtr_head := none
    normalDataPtr_tail := 0
    batchInfoMap := [] }

/-- The method `MeshConsolidator::consolidateMesh`. -/
def consolidateMesh (self : MeshConsolidator) (meshId : MeshId) (mesh : Mesh) :
    Except Failure MeshConsolidator := do
  let startIndex := self.vertexPositionDataPtr_tail / num_floats_per_vertex
  let numIndices := mesh.getNumVertexPositions
  let positions ← memcpy self.vertexPositionDataPtr_head
    (self.vertexPositionDataPtr_tail * sizeof_float)
    mesh.getVertexPositionDataPtr mesh.getNumVertexPositionBytes
  let positionTail :=
    self.vertexPositionDataPtr_tail + mesh.getNumVertexPositionBytes / sizeof_float
  let normals ← memcpy self.normalDataPtr_head
    (self.normalDataPtr_tail * sizeof_float)
    mesh.getVertexNormalDataPtr mesh.getNumVertexNormalBytes
  let normalTail :=
    self.normalDataPtr_tail + mesh.getNumVertexNormalBytes / sizeof_float
  pure { self with
    vertexPositionDataPtr_head := some positions
    vertexPositionDataPtr_tail := positionTail
    normalDataPtr_head := some normals
    normalDataPtr_tail := normalTail
    batchInfoMap := UnorderedMap.assign meshId ⟨startIndex, numIndices⟩ self.batchInfoMap }

/-- First loop of `processMeshes`: add up the byte counts of the meshes. -/
def sumBytes (self : MeshConsolidator) (meshMap : UnorderedMap Mesh) : MeshConsolidator :=
  meshMap.foldl
    (fun s kv => { s with
      totalPositionBytes := s.totalPositionBytes + kv.2.getNumVertexPositionBytes
      totalNormalBytes := s.totalNormalBytes + kv.2.getNumVertexNormalBytes })
    self

/-- Middle of `processMeshes`: the two allocations with their null checks, and
the tail pointers set to the heads.  The check after the second allocation
tests `vertexPositionDataPtr_head`, as the source does. -/
def allocateBuffers (positionAllocOk normalAllocOk : Bool) (self : MeshConsolidator) :
    Except Failure MeshConsolidator := do
  let self := { self with
    vertexPositionDataPtr_head := malloc positionAllocOk self.totalPositionBytes }
  if self.vertexPositionDataPtr_head = none then
    throw (Failure.GlUtilsException allocationMessage)
  let self := { self with
    normalDataPtr_head := malloc normalAllocOk self.totalNormalBytes }
  if self.vertexPositionDataPtr_head = none then
    throw (Failure.GlUtilsException allocationMessage)
  pure { self with vertexPositionDataPtr_tail := 0, normalDataPtr_tail := 0 }

/-- Second loop of `processMeshes`: `consolidateMesh` for each entry, in
iteration order. -/
def consolidateAll (self : MeshConsolidator) (meshMap : UnorderedMap Mesh) :
    Except Failure MeshConsolidator :=
  meshMap.foldlM (fun s kv => consolidateMesh s kv.1 kv.2) self

/-- The method `MeshConsolidator::processMeshes`. -/
def processMeshes (positionAllocOk normalAllocOk : Bool) (self : MeshConsolidator)
    (meshMap : UnorderedMap Mesh) : Except Failure MeshConsolidator := do
  let self := sumBytes self meshMap
  let self ← allocateBuffers positionAllocOk normalAllocOk self
  consolidateAll self meshMap

/-- Construction from a mesh map: the member initialisers followed by
`processMeshes(meshMap)`, which is what both list constructors do once they
have filled `meshMap`. -/
def construct (positionAllocOk normalAllocOk : Bool) (meshMap : UnorderedMap Mesh) :
    Except Failure MeshConsolidator :=
  processMeshes positionAllocOk normalAllocOk init meshMap

/-- The state in which `consolidateMesh` is entered for the entry at position
`i` of the iteration: the buffers are allocated and the entries before `i`
have been consolidated. -/
def stateBefore (positionAllocOk normalAllocOk : Bool) (meshMap : UnorderedMap Mesh)
    (i : Nat) : Except Failure MeshConsolidator := do
  let self ← allocateBuffers positionAllocOk normalAllocOk (sumBytes init meshMap)
  consolidateAll self (meshMap.take i)

/-- The method `MeshConsolidator::getBatchInfo`: every entry of the batch
table is assigned into the map passed by reference.  The result is the
consolidator after the call and the map after the call. -/
def getBatchInfo (self : MeshConsolidator) (batchInfoMap : UnorderedMap BatchInfo) :
    MeshConsolidator × UnorderedMap BatchInfo :=
  (self, self.batchInfoMap.foldl (fun out kv => UnorderedMap.assign kv.1 kv.2 out) batchInfoMap)

/-- The method `MeshConsolidator::getNumVertexPositionBytes`. -/
def getNumVertexPositionBytes (self : MeshConsolidator) : Nat := self.totalPositionBytes

/-- The method `MeshConsolidator::getNumVertexNormalBytes`. -/
def getNumVertexNormalBytes (self : MeshConsolidator) : Nat := self.totalNormalBytes

end MeshConsolidator

/-- The `n` bytes of `buf` from byte offset `byteOffset` on. -/
def region (buf : Buffer) (byteOffset n : Nat) : Buffer := (buf.drop byteOffset).take n

/-- The sum of the position byte counts of the meshes of a map. -/
def sumPositionBytes (meshMap : UnorderedMap Mesh) : Nat :=
  (meshMap.map fun kv => kv.2.getNumVertexPositionBytes).sum

/-- The sum of the normal byte counts of the meshes of a map. -/
def sumNormalBytes (meshMap : UnorderedMap Mesh) : Nat :=
  (meshMap.map fun kv => kv.2.getNumVertexNormalBytes).sum

/-- The sum of the vertex counts of the meshes of a map. -/
def sumVertices (meshMap : UnorderedMap Mesh) : Nat :=
  (meshMap.map fun kv => kv.2.getNumVertexPositions).sum

/-- The sum of `numIndices` over the entries of a batch table. -/
def sumNumIndices (table : UnorderedMap BatchInfo) : Nat :=
  (table.map fun kv => kv.2.numIndices).sum

open MeshConsolidator UnorderedMap

/-! ## Auxiliary definitions for the proofs -/

/-- The floats by which the position tail advances over the entries of a map. -/
def positionFloats (meshMap : UnorderedMap Mesh) : Nat :=
  (meshMap.map fun kv => kv.2.getNumVertexPositionBytes / sizeof_float).sum

/-- The floats by which the normal tail advances over the entries of a map. -/
def normalFloats (meshMap : UnorderedMap Mesh) : Nat :=
  (meshMap.map fun kv => kv.2.getNumVertexNormalBytes / sizeof_float).sum

/-- The batch table after `consolidateMesh` has run over the entries of a map,
starting with the position tail at `tail` and the table `table`. -/
def assignAll (tail : Nat) (table : UnorderedMap BatchInfo) :
    UnorderedMap Mesh → UnorderedMap BatchInfo
  | [] => table
  | kv :: rest =>
    assignAll (tail + kv.2.getNumVertexPositionBytes / sizeof_float)
      (assign kv.1 ⟨tail / num_floats_per_vertex, kv.2.getNumVertexPositions⟩ table) rest

/-- The batch entries that `consolidateMesh` computes for the entries of a map,
in iteration order, starting with the position tail at `tail`. -/
def entriesFrom (tail : Nat) : UnorderedMap Mesh → UnorderedMap BatchInfo
  | [] => []
  | kv :: rest =>
    (kv.1, ⟨tail / num_floats_per_vertex, kv.2.getNumVertexPositions⟩) ::
      entriesFrom (tail + kv.2.getNumVertexPositionBytes / sizeof_float) rest

/-- What the second loop of `processMeshes` establishes: `s'`, with buffers
`pb'` and `nb'`, is the state after the entries `ms` were consolidated from the
state `s` with buffers `pb` and `nb`. -/
structure LoopPost (s : MeshConsolidator) (pb nb : Buffer) (ms : UnorderedMap Mesh)
    (s' : MeshConsolidator) (pb' nb' : Buffer) : Prop where
  positionHead : s'.vertexPositionDataPtr_head = some pb'
  normalHead : s'.normalDataPtr_head = some nb'
  positionLength : pb'.length = pb.length
  normalLength : nb'.length = nb.length
  positionKept : pb'.take (s.vertexPositionDataPtr_tail * sizeof_float)
    = pb.take (s.vertexPositionDataPtr_tail * sizeof_float)
  normalKept : nb'.take (s.normalDataPtr_tail * sizeof_float)
    = nb.take (s.normalDataPtr_tail * sizeof_float)
  positionTotal : s'.totalPositionBytes = s.totalPositionBytes
  normalTotal : s'.totalNormalBytes = s.totalNormalBytes
  positionTail : s'.vertexPositionDataPtr_tail
    = s.vertexPositionDataPtr_tail + positionFloats ms
  normalTail : s'.normalDataPtr_tail = s.normalDataPtr_tail + normalFloats ms
  table : s'.batchInfoMap = assignAll s.vertexPositionDataPtr_tail s.batchInfoMap ms

/-- What one call of `consolidateMesh` establishes, from the state `s` with
buffers `pb` and `nb` to the state `s'` with buffers `pb'` and `nb'`. -/
structure StepPost (s : MeshConsolidator) (pb nb : Buffer) (meshId : MeshId) (mesh : Mesh)
    (s' : MeshConsolidator) (pb' nb' : Buffer) : Prop where
  positionHead : s'.vertexPositionDataPtr_head = some pb'
  normalHead : s'.normalDataPtr_head = some nb'
  positionLength : pb'.length = pb.length
  normalLength : nb'.length = nb.length
  positionKept : pb'.take (s.vertexPositionDataPtr_tail * sizeof_float)
    = pb.take (s.vertexPositionDataPtr_tail * sizeof_float)
  normalKept : nb'.take (s.normalDataPtr_tail * sizeof_float)
    = nb.take (s.normalDataPtr_tail * sizeof_float)
  positionCopied : region pb' (s.vertexPositionDataPtr_tail * sizeof_float)
    mesh.getNumVertexPositionBytes = mesh.vertexPositionData.map some
  normalCopied : region nb' (s.normalDataPtr_tail * sizeof_float)
    mesh.getNumVertexNormalBytes = mesh.vertexNormalData.map some
  positionTotal : s'.totalPositionBytes = s.totalPositionBytes
  normalTotal : s'.totalNormalBytes = s.totalNormalBytes
  positionTail : s'.vertexPositionDataPtr_tail
    = s.vertexPositionDataPtr_tail + mesh.getNumVertexPositionBytes / sizeof_float
  normalTail : s'.normalDataPtr_tail
    = s.normalDataPtr_tail + mesh.getNumVertexNormalBytes / sizeof_float
  table : s'.batchInfoMap = assign meshId
    ⟨s.vertexPositionDataPtr_tail / num_floats_per_vertex, mesh.getNumVertexPositions⟩
    s.batchInfoMap

/-! ## Example meshes -/

/-- A mesh of three vertices in the spec's model: 36 bytes of positions and 36
bytes of normals. -/
def triangle : Mesh :=
  { vertexPositionData := List.range 36
    vertexNormalData := (List.range 36).map (· + 100)
    numVertexPositions := 3 }

/-- A mesh of two vertices in the spec's model: 24 bytes of positions and 24
bytes of normals. -/
def segment : Mesh :=
  { vertexPositionData := (List.range 24).map (· + 50)
    vertexNormalData := (List.range 24).map (· + 200)
    numVertexPositions := 2 }

/-- A mesh of one vertex with two floats per position (8 bytes); it is outside
the spec's model. -/
def flat : Mesh :=
  { vertexPositionData := (List.range 8).map (· + 240)
    vertexNormalData := []
    numVertexPositions := 1 }

/-- The mesh A of the two-mesh scenario: 10 vertices in the spec's model. -/
def meshA : Mesh :=
  { vertexPositionData := List.replicate 120 1
    vertexNormalData := List.replicate 120 2
    numVertexPositions := 10 }

/-- The mesh B of the two-mesh scenario: 5 vertices in the spec's model. -/
def meshB : Mesh :=
  { vertexPositionData := List.replicate 60 3
    vertexNormalData := List.replicate 60 4
    numVertexPositions := 5 }

/-! ## Frustum -/

/-- The part of the GLM library that `Frustum.cpp` uses, over a float type `F`
and a matrix type `M`: the two projection formulas, taken as fixed functions,
and the value of a default-constructed `mat4`. -/
structure Glm (F M : Type) where
  perspective : F → F → F → F → M
  ortho : F → F → F → F → F → F → M
  mat4 : M

/-- The data members of `Frustum`. -/
structure Frustum (F M : Type) where
  fieldOfViewY : F
  aspectRatio : F
  zNear : F
  zFar : F
  _isPerspective : Bool
  recalcPerspectiveMatrix : Bool
  projectionMatrix : M

namespace Frustum

variable {F M : Type}

/-- The default constructor `Frustum::Frustum()`. -/
def default [Zero F] (glm : Glm F M) : Frustum F M :=
  { fieldOfViewY := 0
    aspectRatio := 0
    zNear := 0
    zFar := 0
    _isPerspective := false
    recalcPerspectiveMatrix := false
    projectionMatrix := glm.mat4 }

/-- The orthographic constructor
`Frustum::Frustum(left, right, bottom, top, zNear, zFar)`. -/
def orthographic [Zero F] [Sub F] [Div F] (glm : Glm F M)
    (left right bottom top zNear zFar : F) : Frustum F M :=
  { fieldOfViewY := 0
    aspectRatio := (right - left) / (top - bottom)
    zNear := zNear
    zFar := zFar
    _isPerspective := false
    recalcPerspectiveMatrix := false
    projectionMatrix := glm.ortho left right bottom top zNear zFar }

/-- The perspective constructor
`Frustum::Frustum(fieldOfViewY, aspectRatio, zNear, zFar)`. -/
def perspective (glm : Glm F M) (fieldOfViewY aspectRatio zNear zFar : F) : Frustum F M :=
  { fieldOfViewY := fieldOfViewY
    aspectRatio := aspectRatio
    zNear := zNear
    zFar := zFar
    _isPerspective := true
    recalcPerspectiveMatrix := false
    projectionMatrix := glm.perspective fieldOfViewY aspectRatio zNear zFar }

/-- The method `Frustum::getProjectionMatrix`: the matrix returned and the
frustum after the call (both members it writes are `mutable`). -/
def getProjectionMatrix (glm : Glm F M) (self : Frustum F M) : M × Frustum F M :=
  if self.recalcPerspectiveMatrix then
    let self := { self with
      projectionMatrix :=
        glm.perspective self.fieldOfViewY self.aspectRatio self.zNear self.zFar }
    let self := { self with recalcPerspectiveMatrix := false }
    (self.projectionMatrix, self)
  else
    (self.projectionMatrix, self)

/-- The method `Frustum::getFieldOfViewY`. -/
def getFieldOfViewY (self : Frustum F M) : F := self.fieldOfViewY

/-- The method `Frustum::getAspectRatio`. -/
def getAspectRatio (self : Frustum F M) : F := self.aspectRatio

/-- The method `Frustum::getNearZDistance`. -/
def getNearZDistance (self : Frustum F M) : F := self.zNear

/-- The method `Frustum::getFarZDistance`. -/
def getFarZDistance (self : Frustum F M) : F := self.zFar

/-- The method `Frustum::isPerspective`. -/
def isPerspective (self : Frustum F M) : Bool := self._isPerspective

/-- The method `Frustum::isOrthographic`. -/
def isOrthographic (self : Frustum F M) : Bool := !self._isPerspective

/-- The method `Frustum::setFieldOfViewY`. -/
def setFieldOfViewY (self : Frustum F M) (fieldOfViewY : F) : Frustum F M :=
  { self with fieldOfViewY := fieldOfViewY, recalcPerspectiveMatrix := true }

/-- The method `Frustum::setAspectRatio`. -/
def setAspectRatio (self : Frustum F M) (aspectRatio : F) : Frustum F M :=
  { self with aspectRatio := aspectRatio, recalcPerspectiveMatrix := true }

/-- The method `Frustum::setNearZDistance`. -/
def setNearZDistance (self : Frustum F M) (zNear : F) : Frustum F M :=
  { self with zNear := zNear, recalcPerspectiveMatrix := true }

/-- The method `Frustum::setFarZDistance`. -/
def setFarZDistance (self : Frustum F M) (zFar : F) : Frustum F M :=
  { self with zFar := zFar, recalcPerspectiveMatrix := true }

/-- A call of a setter or of `getProjectionMatrix` made on a frustum. -/
inductive Call (F : Type) where
  | setFieldOfViewY (x : F)
  | setAspectRatio (x : F)
  | setNearZDistance (x : F)
  | setFarZDistance (x : F)
  | getProjectionMatrix

/-- The frustum after one call. -/
def Call.apply (glm : Glm F M) (self : Frustum F M) : Call F → Frustum F M
  | .setFieldOfViewY x => self.setFieldOfViewY x
  | .setAspectRatio x => self.setAspectRatio x
  | .setNearZDistance x => self.setNearZDistance x
  | .setFarZDistance x => self.setFarZDistance x
  | .getProjectionMatrix => (self.getProjectionMatrix glm).2

/-- The frustum after a sequence of calls, made in order. -/
def run (glm : Glm F M) (calls : List (Call F)) (self : Frustum F M) : Frustum F M :=
  calls.foldl (Call.apply glm) self

/-- The cache invariant of the perspective variant: the frustum is dirty, or
its cached matrix is the perspective matrix of its fields. -/
def CacheValid (glm : Glm F M) (self : Frustum F M) : Prop :=
  self.recalcPerspectiveMatrix = true ∨
    self.projectionMatrix
      = glm.perspective self.fieldOfViewY self.aspectRatio self.zNear self.zFar

end Frustum

namespace Frustum

variable {F M : Type}

/-- The const queries of `Frustum` other than `getProjectionMatrix`: the four
field accessors, `isPerspective` and `isOrthographic`. -/
inductive Query where
  | getFieldOfViewY
  | getAspectRatio
  | getNearZDistance
  | getFarZDistance
  | isPerspective
  | isOrthographic
deriving DecidableEq, Repr

/-- The frustum after a call of one of the const queries: the body of each is
a single `return` of a member (negated for `isOrthographic`), so no member is
written. -/
def Query.apply (self : Frustum F M) : Query → Frustum F M
  | .getFieldOfViewY => self
  | .getAspectRatio => self
  | .getNearZDistance => self
  | .getFarZDistance => self
  | .isPerspective => self
  | .isOrthographic => self

/-- Whether a call is one of the four setters. -/
def Call.isSetter : Call F → Bool
  | .setFieldOfViewY _ => true
  | .setAspectRatio _ => true
  | .setNearZDistance _ => true
  | .setFarZDistance _ => true
  | .getProjectionMatrix => false

end Frustum

/-- A matrix of the symbolic GLM: the formula that produced it with its
arguments, or the default-constructed matrix.  Matrices produced by different
formulas are different, as they are in GLM, where the fourth row of an `ortho`
matrix is (0, 0, 0, 1) and that of a `perspective` matrix is (0, 0, -1, 0). -/
inductive SymbolicMatrix where
  | perspective (fieldOfViewY aspectRatio zNear zFar : ℚ)
  | ortho (left right bottom top zNear zFar : ℚ)
  | mat4
deriving DecidableEq

/-- The symbolic GLM over the rationals, used for concrete frusta. -/
def symbolicGlm : Glm ℚ SymbolicMatrix :=
  { perspective := SymbolicMatrix.perspective
    ortho := SymbolicMatrix.ortho
    mat4 := SymbolicMatrix.mat4 }

/-! ## The list constructors of MeshConsolidator -/

/-- The name of a Wavefront `.obj` file. -/
abbrev FileName := String

namespace MeshConsolidator

/-- The loop `meshMap[key_value.first] = key_value.second` of the list
constructors, run over the constructor list from an empty map.  The result
lists each key once; the order in which the map is then iterated is given
separately, by an iteration order. -/
def fillMeshMap (list : List (MeshId × Mesh)) : UnorderedMap Mesh :=
  list.foldl (fun meshMap key_value => assign key_value.1 key_value.2 meshMap) []

/-- An iteration order of `unordered_map`: the implementation iterates the
entries of a map in an order of its choice, each entry once. -/
def IterationOrder (order : UnorderedMap Mesh → UnorderedMap Mesh) : Prop :=
  ∀ meshMap, (order meshMap).Perm meshMap

/-- The constructor `MeshConsolidator(initializer_list<pair<const char *,
const Mesh *>>)`: the member initialisers, the loop filling `meshMap`, and
`processMeshes(meshMap)`, which iterates `meshMap` in the order `order`. -/
def ofMeshList (order : UnorderedMap Mesh → UnorderedMap Mesh)
    (positionAllocOk normalAllocOk : Bool) (list : List (MeshId × Mesh)) :
    Except Failure MeshConsolidator :=
  processMeshes positionAllocOk normalAllocOk init (order (fillMeshMap list))

/-- The constructor `MeshConsolidator(initializer_list<pair<const char *,
const char *>>)`: every listed file is loaded into a `Mesh` (by `load`, the
constructor of the absent `Mesh` class), `meshMap` is filled with the loaded
meshes, and `processMeshes(meshMap)` is called. -/
def ofFileList (load : FileName → Mesh) (order : UnorderedMap Mesh → UnorderedMap Mesh)
    (positionAllocOk normalAllocOk : Bool) (list : List (MeshId × FileName)) :
    Except Failure MeshConsolidator :=
  processMeshes positionAllocOk normalAllocOk init
    (order (fillMeshMap (list.map fun key_value => (key_value.1, load key_value.2))))

end MeshConsolidator

/-- The pairs of a constructor list that are not followed by a pair with the
same key: the list with, for every duplicated key, all pairs but the last
removed.  It is written from the claim about duplicate names, to be compared
with the map that the constructor fills. -/
def keepLast : List (MeshId × Mesh) → List (MeshId × Mesh)
  | [] => []
  | kv :: rest => if kv.1 ∈ keys rest then keepLast rest else kv :: keepLast rest

/-! ## Lemmas -/

theorem find_assign_self {α : Type} (key : MeshId) (val : α) (m : UnorderedMap α) :
    find key (assign key val m) = some val := by
  induction m with
  | nil => simp [assign, find]
  | cons kv rest ih =>
    obtain ⟨k, v⟩ := kv
    by_cases h : k = key
    · simp [assign, find, h]
    · simp [assign, find, h, ih]

theorem find_assign_ne {α : Type} (key key' : MeshId) (val : α) (m : UnorderedMap α)
    (hne : key' ≠ key) : find key' (assign key val m) = find key' m := by
  induction m with
  | nil => simp [assign, find, Ne.symm hne]
  | cons kv rest ih =>
    obtain ⟨k, v⟩ := kv
    by_cases h : k = key
    · subst h
      simp [assign, find, Ne.symm hne]
    · by_cases h' : k = key'
      · subst h'
        simp [assign, find, h]
      · simp [assign, find, h, h', ih]

theorem assign_of_not_mem {α : Type} (key : MeshId) (val : α) (m : UnorderedMap α)
    (h : key ∉ keys m) : assign key val m = m ++ [(key, val)] := by
  induction m with
  | nil => rfl
  | cons kv rest ih =>
    obtain ⟨k, v⟩ := kv
    simp only [keys, List.map_cons, List.mem_cons, not_or] at h
    have hk : k ≠ key := fun e => h.1 e.symm
    simp only [assign, hk, if_false, List.cons_append]
    rw [ih h.2]

theorem keys_assign_mem {α : Type} (key : MeshId) (val : α) (m : UnorderedMap α)
    (h : key ∈ keys m) : keys (assign key val m) = keys m := by
  induction m with
  | nil => simp [keys] at h
  | cons kv rest ih =>
    obtain ⟨k, v⟩ := kv
    by_cases hk : k = key
    · simp [assign, keys, hk]
    · have : key ∈ keys rest := by
        simp only [keys, List.map_cons, List.mem_cons] at h
        rcases h with h | h
        · exact absurd h.symm hk
        · exact h
      simp only [assign, hk, if_false, keys, List.map_cons]
      have := ih this
      simp only [keys] at this
      rw [this]

theorem sumBytes_eq (meshMap : UnorderedMap Mesh) (self : MeshConsolidator) :
    sumBytes self meshMap = { self with
      totalPositionBytes := self.totalPositionBytes + sumPositionBytes meshMap
      totalNormalBytes := self.totalNormalBytes + sumNormalBytes meshMap } := by
  induction meshMap generalizing self with
  | nil => simp [sumBytes, sumPositionBytes, sumNormalBytes]
  | cons kv rest ih =>
    have := ih { self with
      totalPositionBytes := self.totalPositionBytes + kv.2.getNumVertexPositionBytes
      totalNormalBytes := self.totalNormalBytes + kv.2.getNumVertexNormalBytes }
    simp only [sumBytes, List.foldl_cons] at this ⊢
    rw [this]
    simp [sumPositionBytes, sumNormalBytes, Nat.add_assoc]

theorem allocateBuffers_ok (self : MeshConsolidator) :
    allocateBuffers true true self = .ok { self with
      vertexPositionDataPtr_head := some (List.replicate self.totalPositionBytes none)
      normalDataPtr_head := some (List.replicate self.totalNormalBytes none)
      vertexPositionDataPtr_tail := 0
      normalDataPtr_tail := 0 } := by
  rfl

theorem allocateBuffers_position_fails (normalAllocOk : Bool) (self : MeshConsolidator) :
    allocateBuffers false normalAllocOk self =
      .error (Failure.GlUtilsException allocationMessage) := by
  rfl

theorem memcpy_ok (buf : Buffer) (off : Nat) (src : List Byte)
    (h : off + src.length ≤ buf.length) :
    memcpy (some buf) off src src.length =
      .ok (buf.take off ++ src.map some ++ buf.drop (off + src.length)) := by
  simp [memcpy, h]

theorem consolidateMesh_ok (self : MeshConsolidator) (meshId : MeshId) (mesh : Mesh)
    (pb nb : Buffer)
    (hp : self.vertexPositionDataPtr_head = some pb)
    (hn : self.normalDataPtr_head = some nb)
    (hpb : self.vertexPositionDataPtr_tail * sizeof_float + mesh.getNumVertexPositionBytes
      ≤ pb.length)
    (hnb : self.normalDataPtr_tail * sizeof_float + mesh.getNumVertexNormalBytes ≤ nb.length) :
    consolidateMesh self meshId mesh = .ok { self with
      vertexPositionDataPtr_head := some
        (pb.take (self.vertexPositionDataPtr_tail * sizeof_float)
          ++ mesh.vertexPositionData.map some
          ++ pb.drop (self.vertexPositionDataPtr_tail * sizeof_float
              + mesh.getNumVertexPositionBytes))
      vertexPositionDataPtr_tail :=
        self.vertexPositionDataPtr_tail + mesh.getNumVertexPositionBytes / sizeof_float
      normalDataPtr_head := some
        (nb.take (self.normalDataPtr_tail * sizeof_float)
          ++ mesh.vertexNormalData.map some
          ++ nb.drop (self.normalDataPtr_tail * sizeof_float + mesh.getNumVertexNormalBytes))
      normalDataPtr_tail :=
        self.normalDataPtr_tail + mesh.getNumVertexNormalBytes / sizeof_float
      batchInfoMap := assign meshId
        ⟨self.vertexPositionDataPtr_tail / num_floats_per_vertex, mesh.getNumVertexPositions⟩
        self.batchInfoMap } := by
  unfold consolidateMesh
  rw [hp, hn]
  simp only [Mesh.getVertexPositionDataPtr, Mesh.getVertexNormalDataPtr,
    Mesh.getNumVertexPositionBytes, Mesh.getNumVertexNormalBytes] at hpb hnb ⊢
  rw [memcpy_ok _ _ _ hpb, memcpy_ok _ _ _ hnb]
  rfl

theorem write_length (buf src : Buffer) (off : Nat) (h : off + src.length ≤ buf.length) :
    (buf.take off ++ src ++ buf.drop (off + src.length)).length = buf.length := by
  simp only [List.length_append, List.length_take, List.length_drop]
  omega

theorem write_take (buf src rest : Buffer) (off k : Nat) (hk : k ≤ off)
    (h : off ≤ buf.length) : (buf.take off ++ src ++ rest).take k = buf.take k := by
  rw [List.append_assoc, List.take_append_of_le_length (by simp; omega), List.take_take]
  congr 1
  omega

theorem write_region (buf src : Buffer) (off : Nat) (h : off + src.length ≤ buf.length) :
    region (buf.take off ++ src ++ buf.drop (off + src.length)) off src.length = src := by
  unfold region
  have hl : (buf.take off).length = off := by simp; omega
  rw [List.append_assoc, List.drop_append_of_le_length (by omega)]
  rw [List.drop_eq_nil_of_le (by omega)]
  simp

theorem consolidateMesh_spec (s : MeshConsolidator) (meshId : MeshId) (mesh : Mesh)
    (pb nb : Buffer)
    (hp : s.vertexPositionDataPtr_head = some pb)
    (hn : s.normalDataPtr_head = some nb)
    (hpb : s.vertexPositionDataPtr_tail * sizeof_float + mesh.getNumVertexPositionBytes
      ≤ pb.length)
    (hnb : s.normalDataPtr_tail * sizeof_float + mesh.getNumVertexNormalBytes ≤ nb.length) :
    ∃ s' pb' nb', consolidateMesh s meshId mesh = .ok s' ∧
      StepPost s pb nb meshId mesh s' pb' nb' := by
  have hlp : (mesh.vertexPositionData.map some : Buffer).length
      = mesh.getNumVertexPositionBytes := by simp [Mesh.getNumVertexPositionBytes]
  have hln : (mesh.vertexNormalData.map some : Buffer).length
      = mesh.getNumVertexNormalBytes := by simp [Mesh.getNumVertexNormalBytes]
  refine ⟨_,
    pb.take (s.vertexPositionDataPtr_tail * sizeof_float)
      ++ mesh.vertexPositionData.map some
      ++ pb.drop (s.vertexPositionDataPtr_tail * sizeof_float + mesh.getNumVertexPositionBytes),
    nb.take (s.normalDataPtr_tail * sizeof_float)
      ++ mesh.vertexNormalData.map some
      ++ nb.drop (s.normalDataPtr_tail * sizeof_float + mesh.getNumVertexNormalBytes),
    consolidateMesh_ok s meshId mesh pb nb hp hn hpb hnb, ?_⟩
  refine ⟨rfl, rfl, ?_, ?_, ?_, ?_, ?_, ?_, rfl, rfl, rfl, rfl, rfl⟩
  · rw [← hlp]; exact write_length _ _ _ (by rw [hlp]; exact hpb)
  · rw [← hln]; exact write_length _ _ _ (by rw [hln]; exact hnb)
  · exact write_take _ _ _ _ _ (le_refl _) (by omega)
  · exact write_take _ _ _ _ _ (le_refl _) (by omega)
  · rw [← hlp]; exact write_region _ _ _ (by rw [hlp]; exact hpb)
  · rw [← hln]; exact write_region _ _ _ (by rw [hln]; exact hnb)

theorem consolidateAll_spec (ms : UnorderedMap Mesh) :
    ∀ (s : MeshConsolidator) (pb nb : Buffer),
      s.vertexPositionDataPtr_head = some pb → s.normalDataPtr_head = some nb →
      s.vertexPositionDataPtr_tail * sizeof_float + sumPositionBytes ms ≤ pb.length →
      s.normalDataPtr_tail * sizeof_float + sumNormalBytes ms ≤ nb.length →
      ∃ s' pb' nb', consolidateAll s ms = .ok s' ∧ LoopPost s pb nb ms s' pb' nb' := by
  induction ms with
  | nil =>
    intro s pb nb hp hn _ _
    exact ⟨s, pb, nb, rfl, ⟨hp, hn, rfl, rfl, rfl, rfl, rfl, rfl,
      by simp [positionFloats], by simp [normalFloats], rfl⟩⟩
  | cons kv rest ih =>
    intro s pb nb hp hn hpb hnb
    have hsp : sumPositionBytes (kv :: rest)
        = kv.2.getNumVertexPositionBytes + sumPositionBytes rest := by
      simp [sumPositionBytes]
    have hsn : sumNormalBytes (kv :: rest)
        = kv.2.getNumVertexNormalBytes + sumNormalBytes rest := by
      simp [sumNormalBytes]
    rw [hsp] at hpb
    rw [hsn] at hnb
    have hdp := Nat.div_mul_le_self kv.2.getNumVertexPositionBytes sizeof_float
    have hdn := Nat.div_mul_le_self kv.2.getNumVertexNormalBytes sizeof_float
    obtain ⟨s1, pb1, nb1, hstep, st⟩ :=
      consolidateMesh_spec s kv.1 kv.2 pb nb hp hn (by omega) (by omega)
    obtain ⟨s', pb', nb', hrun, post⟩ := ih s1 pb1 nb1 st.positionHead st.normalHead
      (by rw [st.positionTail, st.positionLength, Nat.add_mul]; omega)
      (by rw [st.normalTail, st.normalLength, Nat.add_mul]; omega)
    refine ⟨s', pb', nb', ?_, ?_⟩
    · simp only [consolidateAll, List.foldlM_cons] at hrun ⊢
      rw [hstep]
      exact hrun
    · obtain ⟨h1, h2, h3, h4, h5, h6, h7, h8, h9, h10, h11⟩ := post
      refine ⟨h1, h2, ?_, ?_, ?_, ?_, ?_, ?_, ?_, ?_, ?_⟩
      · rw [h3, st.positionLength]
      · rw [h4, st.normalLength]
      · have := congrArg (List.take (s.vertexPositionDataPtr_tail * sizeof_float)) h5
        simp only [List.take_take] at this
        rw [Nat.min_eq_left (by rw [st.positionTail, Nat.add_mul]; omega)] at this
        rw [this, st.positionKept]
      · have := congrArg (List.take (s.normalDataPtr_tail * sizeof_float)) h6
        simp only [List.take_take] at this
        rw [Nat.min_eq_left (by rw [st.normalTail, Nat.add_mul]; omega)] at this
        rw [this, st.normalKept]
      · rw [h7, st.positionTotal]
      · rw [h8, st.normalTotal]
      · rw [h9, st.positionTail]; simp [positionFloats, Nat.add_assoc]
      · rw [h10, st.normalTail]; simp [normalFloats, Nat.add_assoc]
      · rw [h11, st.table, st.positionTail]; rfl

theorem consolidateAll_append (s : MeshConsolidator) (pre post : UnorderedMap Mesh) :
    consolidateAll s (pre ++ post)
      = (consolidateAll s pre >>= fun s1 => consolidateAll s1 post) := by
  simp only [consolidateAll, List.foldlM_append]

theorem sumPositionBytes_append (pre post : UnorderedMap Mesh) :
    sumPositionBytes (pre ++ post) = sumPositionBytes pre + sumPositionBytes post := by
  simp [sumPositionBytes]

theorem sumNormalBytes_append (pre post : UnorderedMap Mesh) :
    sumNormalBytes (pre ++ post) = sumNormalBytes pre + sumNormalBytes post := by
  simp [sumNormalBytes]

theorem positionFloats_mul_le (ms : UnorderedMap Mesh) :
    positionFloats ms * sizeof_float ≤ sumPositionBytes ms := by
  induction ms with
  | nil => simp [positionFloats, sumPositionBytes]
  | cons kv rest ih =>
    have := Nat.div_mul_le_self kv.2.getNumVertexPositionBytes sizeof_float
    simp only [positionFloats, sumPositionBytes, List.map_cons, List.sum_cons, Nat.add_mul]
      at ih ⊢
    omega

theorem normalFloats_mul_le (ms : UnorderedMap Mesh) :
    normalFloats ms * sizeof_float ≤ sumNormalBytes ms := by
  induction ms with
  | nil => simp [normalFloats, sumNormalBytes]
  | cons kv rest ih =>
    have := Nat.div_mul_le_self kv.2.getNumVertexNormalBytes sizeof_float
    simp only [normalFloats, sumNormalBytes, List.map_cons, List.sum_cons, Nat.add_mul]
      at ih ⊢
    omega

/-- The prefix run: with both allocations successful, the state before entry `i`. -/
theorem stateBefore_spec (m : UnorderedMap Mesh) (i : Nat) :
    ∃ s pb nb, stateBefore true true m i = .ok s ∧
      s.vertexPositionDataPtr_head = some pb ∧ s.normalDataPtr_head = some nb ∧
      pb.length = sumPositionBytes m ∧ nb.length = sumNormalBytes m ∧
      s.totalPositionBytes = sumPositionBytes m ∧ s.totalNormalBytes = sumNormalBytes m ∧
      s.vertexPositionDataPtr_tail = positionFloats (m.take i) ∧
      s.normalDataPtr_tail = normalFloats (m.take i) ∧
      s.batchInfoMap = assignAll 0 [] (m.take i) := by
  have hp : sumPositionBytes (m.take i) ≤ sumPositionBytes m := by
    conv_rhs => rw [← List.take_append_drop i m, sumPositionBytes_append]
    omega
  have hn : sumNormalBytes (m.take i) ≤ sumNormalBytes m := by
    conv_rhs => rw [← List.take_append_drop i m, sumNormalBytes_append]
    omega
  obtain ⟨s, pb, nb, hrun, post⟩ := consolidateAll_spec (m.take i)
    { sumBytes init m with
      vertexPositionDataPtr_head :=
        some (List.replicate (sumBytes init m).totalPositionBytes none)
      normalDataPtr_head := some (List.replicate (sumBytes init m).totalNormalBytes none)
      vertexPositionDataPtr_tail := 0
      normalDataPtr_tail := 0 }
    _ _ rfl rfl
    (by simp [sumBytes_eq, init]; omega)
    (by simp [sumBytes_eq, init]; omega)
  refine ⟨s, pb, nb, ?_, post.positionHead, post.normalHead, ?_, ?_, ?_, ?_, ?_, ?_, ?_⟩
  · unfold stateBefore
    rw [allocateBuffers_ok]
    exact hrun
  · rw [post.positionLength]; simp [sumBytes_eq, init]
  · rw [post.normalLength]; simp [sumBytes_eq, init]
  · rw [post.positionTotal]; simp [sumBytes_eq, init]
  · rw [post.normalTotal]; simp [sumBytes_eq, init]
  · rw [post.positionTail]; simp
  · rw [post.normalTail]; simp
  · rw [post.table]; simp [sumBytes_eq, init]

theorem construct_eq_stateBefore (pa na : Bool) (m : UnorderedMap Mesh) :
    construct pa na m = stateBefore pa na m m.length := by
  simp [construct, stateBefore, processMeshes]

theorem construct_eq_bind (pa na : Bool) (m : UnorderedMap Mesh) (i : Nat) :
    construct pa na m
      = (stateBefore pa na m i >>= fun s => consolidateAll s (m.drop i)) := by
  have key : ∀ s : MeshConsolidator, consolidateAll s m
      = (consolidateAll s (m.take i) >>= fun s1 => consolidateAll s1 (m.drop i)) := by
    intro s
    rw [← consolidateAll_append, List.take_append_drop]
  unfold construct processMeshes stateBefore
  show (allocateBuffers pa na (sumBytes init m) >>= fun s => consolidateAll s m) = _
  cases allocateBuffers pa na (sumBytes init m) with
  | error e => rfl
  | ok s => exact key s

theorem keys_entriesFrom (ms : UnorderedMap Mesh) (tail : Nat) :
    keys (entriesFrom tail ms) = keys ms := by
  induction ms generalizing tail with
  | nil => rfl
  | cons kv rest ih =>
    have := ih (tail + kv.2.getNumVertexPositionBytes / sizeof_float)
    simp only [keys, entriesFrom, List.map_cons] at this ⊢
    rw [this]

theorem assignAll_eq_append (ms : UnorderedMap Mesh) :
    ∀ (tail : Nat) (table : UnorderedMap BatchInfo), (keys table ++ keys ms).Nodup →
      assignAll tail table ms = table ++ entriesFrom tail ms := by
  induction ms with
  | nil => intro tail table _; simp [assignAll, entriesFrom]
  | cons kv rest ih =>
    intro tail table hnd
    have hnot : kv.1 ∉ keys table := by
      intro hmem
      have := List.nodup_append.mp hnd
      exact this.2.2 hmem (by simp [keys])
    simp only [assignAll, entriesFrom]
    rw [assign_of_not_mem _ _ _ hnot, ih]
    · simp
    · have e : keys (table ++ [(kv.1,
          (⟨tail / num_floats_per_vertex, kv.2.getNumVertexPositions⟩ : BatchInfo))])
            ++ keys rest = keys table ++ keys (kv :: rest) := by
        simp [keys]
      rw [e]
      exact hnd

theorem positionFloats_cons (kv : MeshId × Mesh) (rest : UnorderedMap Mesh) :
    positionFloats (kv :: rest)
      = kv.2.getNumVertexPositionBytes / sizeof_float + positionFloats rest := by
  simp [positionFloats]

theorem find_entriesFrom (ms : UnorderedMap Mesh) :
    ∀ (tail i : Nat) (h : i < ms.length), (keys ms).Nodup →
      find (ms[i]).1 (entriesFrom tail ms)
        = some ⟨(tail + positionFloats (ms.take i)) / num_floats_per_vertex,
            (ms[i]).2.getNumVertexPositions⟩ := by
  induction ms with
  | nil => intro tail i h; simp at h
  | cons kv rest ih =>
    intro tail i h hnd
    cases i with
    | zero => simp [entriesFrom, find, positionFloats]
    | succ j =>
      have hj : j < rest.length := by simpa using h
      have hnd' : (keys rest).Nodup := by
        simp only [keys, List.map_cons, List.nodup_cons] at hnd
        exact hnd.2
      have hne : kv.1 ≠ (rest[j]).1 := by
        simp only [keys, List.map_cons, List.nodup_cons] at hnd
        intro e
        apply hnd.1
        rw [e]
        exact List.mem_map_of_mem Prod.fst (List.getElem_mem hj)
      simp only [List.getElem_cons_succ, entriesFrom, find, hne, if_false, List.take_succ_cons,
        positionFloats_cons]
      rw [ih _ j hj hnd', Nat.add_assoc]

theorem sumNumIndices_entriesFrom (ms : UnorderedMap Mesh) (tail : Nat) :
    sumNumIndices (entriesFrom tail ms) = sumVertices ms := by
  induction ms generalizing tail with
  | nil => rfl
  | cons kv rest ih =>
    have := ih (tail + kv.2.getNumVertexPositionBytes / sizeof_float)
    simp only [sumNumIndices, sumVertices, entriesFrom, List.map_cons, List.sum_cons]
      at this ⊢
    rw [this]

theorem positionFloats_of_spec (ms : UnorderedMap Mesh)
    (h : ∀ kv ∈ ms, kv.2.PositionsFollowSpec) :
    positionFloats ms = sumVertices ms * num_floats_per_vertex := by
  induction ms with
  | nil => simp [positionFloats, sumVertices]
  | cons kv rest ih =>
    have hk := h kv (List.mem_cons_self _ _)
    have hr := ih (fun x hx => h x (List.mem_cons_of_mem _ hx))
    unfold Mesh.PositionsFollowSpec at hk
    simp only [positionFloats, sumVertices, List.map_cons, List.sum_cons] at hr ⊢
    rw [hr, hk]
    simp only [num_floats_per_vertex, sizeof_float]
    omega

theorem sumPositionBytes_of_spec (ms : UnorderedMap Mesh)
    (h : ∀ kv ∈ ms, kv.2.PositionsFollowSpec) :
    sumPositionBytes ms = sumVertices ms * (num_floats_per_vertex * sizeof_float) := by
  induction ms with
  | nil => simp [sumPositionBytes, sumVertices]
  | cons kv rest ih =>
    have hk := h kv (List.mem_cons_self _ _)
    have hr := ih (fun x hx => h x (List.mem_cons_of_mem _ hx))
    unfold Mesh.PositionsFollowSpec at hk
    simp only [sumPositionBytes, sumVertices, List.map_cons, List.sum_cons] at hr ⊢
    rw [hr, hk, Nat.add_mul]

/-- With both allocations successful, construction returns, and the final
state is described by the sums over the map. -/
theorem construct_spec (m : UnorderedMap Mesh) :
    ∃ mc pb nb, construct true true m = .ok mc ∧
      mc.vertexPositionDataPtr_head = some pb ∧ mc.normalDataPtr_head = some nb ∧
      pb.length = sumPositionBytes m ∧ nb.length = sumNormalBytes m ∧
      mc.totalPositionBytes = sumPositionBytes m ∧ mc.totalNormalBytes = sumNormalBytes m ∧
      mc.vertexPositionDataPtr_tail = positionFloats m ∧
      mc.normalDataPtr_tail = normalFloats m ∧
      mc.batchInfoMap = assignAll 0 [] m := by
  have := stateBefore_spec m m.length
  rw [← construct_eq_stateBefore, List.take_length] at this
  exact this

theorem construct_table (m : UnorderedMap Mesh) (hnd : (keys m).Nodup) :
    ∃ mc, construct true true m = .ok mc ∧
      mc.totalPositionBytes = sumPositionBytes m ∧ mc.batchInfoMap = entriesFrom 0 m := by
  obtain ⟨mc, pb, nb, h, _, _, _, _, htot, _, _, _, htab⟩ := construct_spec m
  refine ⟨mc, h, htot, ?_⟩
  rw [htab, assignAll_eq_append m 0 [] (by simpa [keys] using hnd)]
  rfl

/-! ## MeshConsolidator: totals and batch table -/

theorem sumVertices_take_lt (m : UnorderedMap Mesh) :
    ∀ (i j : Nat) (hi : i < m.length), i < j →
      sumVertices (m.take i) + (m[i]).2.getNumVertexPositions ≤ sumVertices (m.take j) := by
  induction m with
  | nil => intro i j hi; simp at hi
  | cons kv rest ih =>
    intro i j hi hij
    obtain ⟨j', rfl⟩ : ∃ j', j = j' + 1 := ⟨j - 1, by omega⟩
    cases i with
    | zero => simp [sumVertices]
    | succ i' =>
      have := ih i' j' (by simpa using hi) (by omega)
      simp only [sumVertices, List.take_succ_cons, List.map_cons, List.sum_cons,
        List.getElem_cons_succ] at this ⊢
      omega

theorem exists_index_of_mem_keys (m : UnorderedMap Mesh) (meshId : MeshId)
    (h : meshId ∈ keys m) : ∃ (i : Nat) (hi : i < m.length), (m[i]).1 = meshId := by
  obtain ⟨kv, hkv, rfl⟩ := List.mem_map.mp h
  obtain ⟨i, hi, e⟩ := List.getElem_of_mem hkv
  exact ⟨i, hi, by rw [e]⟩

theorem find_construct (m : UnorderedMap Mesh) (hnd : (keys m).Nodup)
    (hspec : ∀ kv ∈ m, kv.2.PositionsFollowSpec) (i : Nat) (hi : i < m.length) :
    find (m[i]).1 (entriesFrom 0 m)
      = some ⟨sumVertices (m.take i), (m[i]).2.getNumVertexPositions⟩ := by
  rw [find_entriesFrom m 0 i hi hnd, Nat.zero_add,
    positionFloats_of_spec (m.take i) (fun kv hkv => hspec kv (List.mem_of_mem_take hkv))]
  simp [num_floats_per_vertex]

/-- C1: for every non-empty map of distinctly named meshes, construction with
both allocations successful returns, and afterwards getNumVertexPositionBytes()
is the sum of the meshes' position byte counts and getNumVertexNormalBytes()
the sum of their normal byte counts. -/
theorem total_bytes_are_sums (m : UnorderedMap Mesh) (_hne : m ≠ [])
    (_hnd : (keys m).Nodup) :
    ∃ mc, construct true true m = .ok mc ∧
      mc.getNumVertexPositionBytes = sumPositionBytes m ∧
      mc.getNumVertexNormalBytes = sumNormalBytes m := by
  obtain ⟨mc, _, _, h, _, _, _, _, hp, hn, _⟩ := construct_spec m
  exact ⟨mc, h, hp, hn⟩

theorem total_bytes_are_sums_witness :
    ([(1, triangle), (2, segment)] : UnorderedMap Mesh) ≠ [] ∧
    (keys [(1, triangle), (2, segment)]).Nodup ∧
    ∃ mc, construct true true [(1, triangle), (2, segment)] = .ok mc ∧
      mc.getNumVertexPositionBytes = sumPositionBytes [(1, triangle), (2, segment)] ∧
      mc.getNumVertexNormalBytes = sumNormalBytes [(1, triangle), (2, segment)] :=
  ⟨by decide, by decide, total_bytes_are_sums _ (by decide) (by decide)⟩

/-- C5: for every map of distinctly named meshes, a mesh being as the spec
describes it (N vertices, a position buffer of N*3 floats), after
construction the sum of numIndices over the batch table equals
totalPositionBytes divided by the number of bytes per vertex position. -/
theorem batch_coverage (m : UnorderedMap Mesh) (hnd : (keys m).Nodup)
    (hspec : ∀ kv ∈ m, kv.2.PositionsFollowSpec) :
    ∃ mc, construct true true m = .ok mc ∧
      sumNumIndices mc.batchInfoMap
        = mc.totalPositionBytes / (num_floats_per_vertex * sizeof_float) := by
  obtain ⟨mc, h, htot, htab⟩ := construct_table m hnd
  refine ⟨mc, h, ?_⟩
  rw [htab, htot, sumNumIndices_entriesFrom, sumPositionBytes_of_spec m hspec]
  simp [num_floats_per_vertex, sizeof_float]

theorem batch_coverage_witness :
    (keys [(1, triangle), (2, segment)]).Nodup ∧
    (∀ kv ∈ ([(1, triangle), (2, segment)] : UnorderedMap Mesh), kv.2.PositionsFollowSpec) ∧
    ∃ mc, construct true true [(1, triangle), (2, segment)] = .ok mc ∧
      sumNumIndices mc.batchInfoMap
        = mc.totalPositionBytes / (num_floats_per_vertex * sizeof_float) :=
  ⟨by decide, by decide, batch_coverage _ (by decide) (by decide)⟩

/-! ## MeshConsolidator: buffer contents and cursors -/

theorem region_congr (l1 l2 : Buffer) (off n : Nat)
    (h : l1.take (off + n) = l2.take (off + n)) : region l1 off n = region l2 off n := by
  have e : ∀ l : Buffer, region l off n = (l.take (off + n)).drop off := by
    intro l
    unfold region
    rw [List.drop_take]
    congr 1
    omega
  rw [e l1, e l2, h]

theorem positionFloats_of_multiple (ms : UnorderedMap Mesh)
    (h : ∀ kv ∈ ms,
      kv.2.getNumVertexPositionBytes % (num_floats_per_vertex * sizeof_float) = 0) :
    positionFloats ms * sizeof_float = sumPositionBytes ms ∧
      positionFloats ms / num_floats_per_vertex * num_floats_per_vertex = positionFloats ms := by
  induction ms with
  | nil => simp [positionFloats, sumPositionBytes]
  | cons kv rest ih =>
    have hk := h kv (List.mem_cons_self _ _)
    have hr := ih (fun x hx => h x (List.mem_cons_of_mem _ hx))
    simp only [positionFloats, sumPositionBytes, List.map_cons, List.sum_cons,
      num_floats_per_vertex, sizeof_float] at hk hr ⊢
    omega

theorem normalFloats_of_multiple (ms : UnorderedMap Mesh)
    (h : ∀ kv ∈ ms, kv.2.getNumVertexNormalBytes % sizeof_float = 0) :
    normalFloats ms * sizeof_float = sumNormalBytes ms := by
  induction ms with
  | nil => simp [normalFloats, sumNormalBytes]
  | cons kv rest ih =>
    have hk := h kv (List.mem_cons_self _ _)
    have hr := ih (fun x hx => h x (List.mem_cons_of_mem _ hx))
    simp only [normalFloats, sumNormalBytes, List.map_cons, List.sum_cons,
      sizeof_float] at hk hr ⊢
    omega

theorem normalFloats_of_spec (ms : UnorderedMap Mesh)
    (h : ∀ kv ∈ ms, kv.2.NormalsFollowSpec) :
    normalFloats ms = sumVertices ms * num_floats_per_vertex := by
  induction ms with
  | nil => simp [normalFloats, sumVertices]
  | cons kv rest ih =>
    have hk := h kv (List.mem_cons_self _ _)
    have hr := ih (fun x hx => h x (List.mem_cons_of_mem _ hx))
    unfold Mesh.NormalsFollowSpec at hk
    simp only [normalFloats, sumVertices, List.map_cons, List.sum_cons] at hr ⊢
    rw [hr, hk]
    simp only [num_floats_per_vertex, sizeof_float]
    omega

/-- The copy made for one entry survives the rest of the loop: after the loop
over `pre ++ kv :: post`, the bytes written for `kv` are still in place when the
byte counts of `kv` are multiples of `sizeof(float)`. -/
theorem consolidateAll_region (pre post : UnorderedMap Mesh) (kv : MeshId × Mesh)
    (s : MeshConsolidator) (pb nb : Buffer)
    (hp : s.vertexPositionDataPtr_head = some pb) (hn : s.normalDataPtr_head = some nb)
    (hpb : s.vertexPositionDataPtr_tail * sizeof_float
      + sumPositionBytes (pre ++ kv :: post) ≤ pb.length)
    (hnb : s.normalDataPtr_tail * sizeof_float
      + sumNormalBytes (pre ++ kv :: post) ≤ nb.length) :
    ∃ s' pb' nb', consolidateAll s (pre ++ kv :: post) = .ok s' ∧
      s'.vertexPositionDataPtr_head = some pb' ∧ s'.normalDataPtr_head = some nb' ∧
      (kv.2.getNumVertexPositionBytes % sizeof_float = 0 →
        region pb' ((s.vertexPositionDataPtr_tail + positionFloats pre) * sizeof_float)
          kv.2.getNumVertexPositionBytes = kv.2.vertexPositionData.map some) ∧
      (kv.2.getNumVertexNormalBytes % sizeof_float = 0 →
        region nb' ((s.normalDataPtr_tail + normalFloats pre) * sizeof_float)
          kv.2.getNumVertexNormalBytes = kv.2.vertexNormalData.map some) := by
  rw [sumPositionBytes_append] at hpb
  rw [sumNormalBytes_append] at hnb
  have hcp : sumPositionBytes (kv :: post)
      = kv.2.getNumVertexPositionBytes + sumPositionBytes post := by simp [sumPositionBytes]
  have hcn : sumNormalBytes (kv :: post)
      = kv.2.getNumVertexNormalBytes + sumNormalBytes post := by simp [sumNormalBytes]
  rw [hcp] at hpb
  rw [hcn] at hnb
  have hfp := positionFloats_mul_le pre
  have hfn := normalFloats_mul_le pre
  have hdp := Nat.div_mul_le_self kv.2.getNumVertexPositionBytes sizeof_float
  have hdn := Nat.div_mul_le_self kv.2.getNumVertexNormalBytes sizeof_float
  obtain ⟨s1, pb1, nb1, hrun1, p1⟩ := consolidateAll_spec pre s pb nb hp hn
    (by omega) (by omega)
  obtain ⟨s2, pb2, nb2, hrun2, p2⟩ := consolidateMesh_spec s1 kv.1 kv.2 pb1 nb1
    p1.positionHead p1.normalHead
    (by rw [p1.positionTail, p1.positionLength, Nat.add_mul]; omega)
    (by rw [p1.normalTail, p1.normalLength, Nat.add_mul]; omega)
  obtain ⟨s3, pb3, nb3, hrun3, p3⟩ := consolidateAll_spec post s2 pb2 nb2
    p2.positionHead p2.normalHead
    (by rw [p2.positionTail, p2.positionLength, p1.positionTail, p1.positionLength,
          Nat.add_mul, Nat.add_mul]; omega)
    (by rw [p2.normalTail, p2.normalLength, p1.normalTail, p1.normalLength,
          Nat.add_mul, Nat.add_mul]; omega)
  refine ⟨s3, pb3, nb3, ?_, p3.positionHead, p3.normalHead, ?_, ?_⟩
  · rw [consolidateAll_append, hrun1]
    show consolidateAll s1 (kv :: post) = _
    simp only [consolidateAll, List.foldlM_cons] at hrun3 ⊢
    rw [hrun2]
    exact hrun3
  · intro hmod
    have hk := p3.positionKept
    rw [p2.positionTail, p1.positionTail] at hk
    have e : (s.vertexPositionDataPtr_tail + positionFloats pre
        + kv.2.getNumVertexPositionBytes / sizeof_float) * sizeof_float
        = (s.vertexPositionDataPtr_tail + positionFloats pre) * sizeof_float
          + kv.2.getNumVertexPositionBytes := by
      rw [Nat.add_mul _ _ sizeof_float, Nat.div_mul_cancel (Nat.dvd_of_mod_eq_zero hmod)]
    rw [e] at hk
    rw [region_congr _ _ _ _ hk, ← p1.positionTail]
    exact p2.positionCopied
  · intro hmod
    have hk := p3.normalKept
    rw [p2.normalTail, p1.normalTail] at hk
    have e : (s.normalDataPtr_tail + normalFloats pre
        + kv.2.getNumVertexNormalBytes / sizeof_float) * sizeof_float
        = (s.normalDataPtr_tail + normalFloats pre) * sizeof_float
          + kv.2.getNumVertexNormalBytes := by
      rw [Nat.add_mul _ _ sizeof_float, Nat.div_mul_cancel (Nat.dvd_of_mod_eq_zero hmod)]
    rw [e] at hk
    rw [region_congr _ _ _ _ hk, ← p1.normalTail]
    exact p2.normalCopied

theorem construct_eq_consolidateAll (m : UnorderedMap Mesh) :
    construct true true m = consolidateAll
      { sumBytes init m with
        vertexPositionDataPtr_head :=
          some (List.replicate (sumBytes init m).totalPositionBytes none)
        normalDataPtr_head := some (List.replicate (sumBytes init m).totalNormalBytes none)
        vertexPositionDataPtr_tail := 0
        normalDataPtr_tail := 0 } m := by
  unfold construct processMeshes
  show (allocateBuffers true true (sumBytes init m) >>= fun s => consolidateAll s m) = _
  rw [allocateBuffers_ok]
  rfl

theorem split_at_index (m : UnorderedMap Mesh) (i : Nat) (hi : i < m.length) :
    m = m.take i ++ m[i] :: m.drop (i + 1) := by
  rw [List.getElem_cons_drop, List.take_append_drop]

/-- Data fidelity from divisibility alone: for every map of distinctly named
meshes whose position byte counts are multiples of the bytes per vertex
position and whose normal byte counts are multiples of sizeof(float),
construction returns, and for every
mesh of the map the position buffer read from startIndex * floats-per-vertex
floats from the head, for the position byte count of the mesh, is the position
data of the mesh, and the normal buffer read from the sum of the normal byte
counts of the meshes iterated before it, for its normal byte count, is its
normal data.  All regions hold in the final buffers, so no later copy has
overwritten an earlier one. -/
theorem data_fidelity_of_multiples (m : UnorderedMap Mesh) (hnd : (keys m).Nodup)
    (hpos : ∀ kv ∈ m,
      kv.2.getNumVertexPositionBytes % (num_floats_per_vertex * sizeof_float) = 0)
    (hnorm : ∀ kv ∈ m, kv.2.getNumVertexNormalBytes % sizeof_float = 0) :
    ∃ mc pb nb, construct true true m = .ok mc ∧
      mc.vertexPositionDataPtr_head = some pb ∧ mc.normalDataPtr_head = some nb ∧
      ∀ (i : Nat) (hi : i < m.length), ∃ b,
        find (m[i]).1 mc.batchInfoMap = some b ∧
        region pb (b.startIndex * num_floats_per_vertex * sizeof_float)
            (m[i]).2.getNumVertexPositionBytes
          = (m[i]).2.vertexPositionData.map some ∧
        region nb (sumNormalBytes (m.take i)) (m[i]).2.getNumVertexNormalBytes
          = (m[i]).2.vertexNormalData.map some := by
  obtain ⟨mc, pb, nb, h, hp, hn, _, _, _, _, _, _, htab⟩ := construct_spec m
  refine ⟨mc, pb, nb, h, hp, hn, ?_⟩
  intro i hi
  have hsplit := split_at_index m i hi
  have hrun := h
  rw [construct_eq_consolidateAll] at hrun
  obtain ⟨s', pb', nb', hrun', hp', hn', hrp, hrn⟩ :=
    consolidateAll_region (m.take i) (m.drop (i + 1)) (m[i])
      { sumBytes init m with
        vertexPositionDataPtr_head :=
          some (List.replicate (sumBytes init m).totalPositionBytes none)
        normalDataPtr_head := some (List.replicate (sumBytes init m).totalNormalBytes none)
        vertexPositionDataPtr_tail := 0
        normalDataPtr_tail := 0 }
      _ _ rfl rfl
      (by rw [← hsplit]; simp [sumBytes_eq, init])
      (by rw [← hsplit]; simp [sumBytes_eq, init])
  rw [← hsplit, hrun] at hrun'
  have hs : mc = s' := by injection hrun'
  subst hs
  have hpb : pb' = pb := by rw [hp] at hp'; injection hp' with e; exact e.symm
  have hnb : nb' = nb := by rw [hn] at hn'; injection hn' with e; exact e.symm
  subst hpb
  subst hnb
  have hmem : ∀ kv ∈ m.take i, kv ∈ m := fun kv hkv => List.mem_of_mem_take hkv
  have hpi := hpos (m[i]) (List.getElem_mem hi)
  have hpi4 : (m[i]).2.getNumVertexPositionBytes % sizeof_float = 0 := by
    simp only [num_floats_per_vertex, sizeof_float] at hpi ⊢
    omega
  obtain ⟨_, hdiv⟩ := positionFloats_of_multiple (m.take i)
    (fun kv hkv => hpos kv (hmem kv hkv))
  have hnf := normalFloats_of_multiple (m.take i) (fun kv hkv => hnorm kv (hmem kv hkv))
  refine ⟨⟨positionFloats (m.take i) / num_floats_per_vertex,
    (m[i]).2.getNumVertexPositions⟩, ?_, ?_, ?_⟩
  · rw [htab, assignAll_eq_append m 0 [] (by simpa [keys] using hnd)]
    have := find_entriesFrom m 0 i hi hnd
    rw [Nat.zero_add] at this
    simpa using this
  · have := hrp hpi4
    simp only [Nat.zero_add] at this
    show region pb' (positionFloats (m.take i) / num_floats_per_vertex
      * num_floats_per_vertex * sizeof_float) _ = _
    rw [hdiv]
    exact this
  · have := hrn (hnorm (m[i]) (List.getElem_mem hi))
    simp only [Nat.zero_add] at this
    rw [← hnf]
    exact this

theorem sumNormalBytes_of_spec (ms : UnorderedMap Mesh)
    (h : ∀ kv ∈ ms, kv.2.NormalsFollowSpec) :
    sumNormalBytes ms = sumVertices ms * (num_floats_per_vertex * sizeof_float) := by
  induction ms with
  | nil => simp [sumNormalBytes, sumVertices]
  | cons kv rest ih =>
    have hk := h kv (List.mem_cons_self _ _)
    have hr := ih (fun x hx => h x (List.mem_cons_of_mem _ hx))
    unfold Mesh.NormalsFollowSpec at hk
    simp only [sumNormalBytes, sumVertices, List.map_cons, List.sum_cons] at hr ⊢
    rw [hr, hk, Nat.add_mul]

/-- C7, at the failing input: with the position allocation successful and
the normal allocation failed, the checks of processMeshes are passed with a
null normal buffer, no GlUtilsException is thrown, and the first
consolidateMesh writes through the null pointer.  A failed position
allocation is signalled. -/
theorem normal_allocation_failure_unsignalled :
    (∃ s, stateBefore true false [(1, triangle)] 0 = .ok s ∧
      s.normalDataPtr_head = none ∧
      s.vertexPositionDataPtr_head = some (List.replicate 36 none)) ∧
    construct true false [(1, triangle)] = .error Failure.invalidWrite ∧
    construct true false [(1, triangle)]
      ≠ .error (Failure.GlUtilsException allocationMessage) ∧
    construct false true [(1, triangle)]
      = .error (Failure.GlUtilsException allocationMessage) :=
  ⟨⟨_, rfl, rfl, rfl⟩, rfl, by simp [show construct true false [(1, triangle)]
      = .error Failure.invalidWrite from rfl], rfl⟩

/-! ## MeshConsolidator: getBatchInfo -/

theorem find_eq_none_of_not_mem {α : Type} (key : MeshId) (m : UnorderedMap α)
    (h : key ∉ keys m) : find key m = none := by
  induction m with
  | nil => rfl
  | cons kv rest ih =>
    obtain ⟨k, v⟩ := kv
    simp only [keys, List.map_cons, List.mem_cons, not_or] at h
    have hk : k ≠ key := fun e => h.1 e.symm
    simp only [find, hk, if_false]
    exact ih h.2

theorem find_of_mem_nodup {α : Type} (m : UnorderedMap α) (hnd : (keys m).Nodup)
    (kv : MeshId × α) (h : kv ∈ m) : find kv.1 m = some kv.2 := by
  induction m with
  | nil => simp at h
  | cons x rest ih =>
    obtain ⟨k, v⟩ := x
    simp only [keys, List.map_cons, List.nodup_cons] at hnd
    rcases List.mem_cons.mp h with e | hin
    · subst e
      simp [find]
    · have hk : k ≠ kv.1 := by
        intro e
        apply hnd.1
        rw [e]
        exact List.mem_map_of_mem Prod.fst hin
      simp only [find, hk, if_false]
      exact ih hnd.2 hin

theorem assign_eq_self {α : Type} (key : MeshId) (val : α) (m : UnorderedMap α)
    (h : find key m = some val) : assign key val m = m := by
  induction m with
  | nil => simp [find] at h
  | cons kv rest ih =>
    obtain ⟨k, v⟩ := kv
    by_cases hk : k = key
    · subst hk
      simp only [find, if_true, Option.some.injEq] at h
      simp [assign, h]
    · simp only [find, hk, if_false] at h
      simp only [assign, hk, if_false]
      rw [ih h]

theorem keys_assign_nodup {α : Type} (key : MeshId) (val : α) (m : UnorderedMap α)
    (hnd : (keys m).Nodup) : (keys (assign key val m)).Nodup := by
  by_cases h : key ∈ keys m
  · rw [keys_assign_mem key val m h]
    exact hnd
  · rw [assign_of_not_mem key val m h]
    simp only [keys, List.map_append, List.map_cons, List.map_nil]
    rw [List.nodup_append]
    refine ⟨hnd, by simp, ?_⟩
    intro a ha hb
    simp only [List.mem_singleton] at hb
    subst hb
    exact h ha

theorem find_foldl_assign (table : UnorderedMap BatchInfo) :
    ∀ (out : UnorderedMap BatchInfo) (key : MeshId), (keys table).Nodup →
      find key (table.foldl (fun o kv => assign kv.1 kv.2 o) out)
        = match find key table with
          | some b => some b
          | none => find key out := by
  induction table with
  | nil => intro out key _; rfl
  | cons kv rest ih =>
    intro out key hnd
    obtain ⟨k, v⟩ := kv
    simp only [keys, List.map_cons, List.nodup_cons] at hnd
    rw [List.foldl_cons, ih _ key hnd.2]
    by_cases hk : k = key
    · subst hk
      rw [find_eq_none_of_not_mem k rest hnd.1]
      simp [find, find_assign_self]
    · simp only [find, hk, if_false]
      rw [find_assign_ne k key v out (fun e => hk e.symm)]

theorem foldl_assign_append (table : UnorderedMap BatchInfo) :
    ∀ (out : UnorderedMap BatchInfo), (keys out ++ keys table).Nodup →
      table.foldl (fun o kv => assign kv.1 kv.2 o) out = out ++ table := by
  induction table with
  | nil => intro out _; simp
  | cons kv rest ih =>
    intro out hnd
    have hnot : kv.1 ∉ keys out := by
      intro hmem
      exact (List.nodup_append.mp hnd).2.2 hmem (by simp [keys])
    rw [List.foldl_cons, assign_of_not_mem _ _ _ hnot, ih]
    · simp
    · have e : keys (out ++ [(kv.1, kv.2)]) ++ keys rest = keys out ++ keys (kv :: rest) := by
        simp [keys]
      rw [e]
      exact hnd

theorem foldl_assign_fixed (table : UnorderedMap BatchInfo) :
    ∀ (out : UnorderedMap BatchInfo), (∀ kv ∈ table, find kv.1 out = some kv.2) →
      table.foldl (fun o kv => assign kv.1 kv.2 o) out = out := by
  induction table with
  | nil => intro out _; rfl
  | cons kv rest ih =>
    intro out h
    rw [List.foldl_cons, assign_eq_self _ _ _ (h kv (List.mem_cons_self _ _))]
    exact ih out (fun x hx => h x (List.mem_cons_of_mem _ hx))

theorem consolidateMesh_table_nodup (s s' : MeshConsolidator) (meshId : MeshId) (mesh : Mesh)
    (h : consolidateMesh s meshId mesh = .ok s') (hnd : (keys s.batchInfoMap).Nodup) :
    (keys s'.batchInfoMap).Nodup := by
  unfold consolidateMesh at h
  cases h1 : memcpy s.vertexPositionDataPtr_head (s.vertexPositionDataPtr_tail * sizeof_float)
      mesh.getVertexPositionDataPtr mesh.getNumVertexPositionBytes with
  | error e => rw [h1] at h; cases h
  | ok p =>
    cases h2 : memcpy s.normalDataPtr_head (s.normalDataPtr_tail * sizeof_float)
        mesh.getVertexNormalDataPtr mesh.getNumVertexNormalBytes with
    | error e => rw [h1, h2] at h; cases h
    | ok n =>
      rw [h1, h2] at h
      have e : s' = { s with
          vertexPositionDataPtr_head := some p
          vertexPositionDataPtr_tail :=
            s.vertexPositionDataPtr_tail + mesh.getNumVertexPositionBytes / sizeof_float
          normalDataPtr_head := some n
          normalDataPtr_tail :=
            s.normalDataPtr_tail + mesh.getNumVertexNormalBytes / sizeof_float
          batchInfoMap := assign meshId
            ⟨s.vertexPositionDataPtr_tail / num_floats_per_vertex, mesh.getNumVertexPositions⟩
            s.batchInfoMap } := by
        injection h with h'
        exact h'.symm
      rw [e]
      exact keys_assign_nodup _ _ _ hnd

theorem consolidateAll_table_nodup (ms : UnorderedMap Mesh) :
    ∀ (s s' : MeshConsolidator), consolidateAll s ms = .ok s' →
      (keys s.batchInfoMap).Nodup → (keys s'.batchInfoMap).Nodup := by
  induction ms with
  | nil =>
    intro s s' h hnd
    have : s = s' := by injection h
    rw [← this]
    exact hnd
  | cons kv rest ih =>
    intro s s' h hnd
    simp only [consolidateAll, List.foldlM_cons] at h
    cases h1 : consolidateMesh s kv.1 kv.2 with
    | error e => rw [h1] at h; cases h
    | ok s1 =>
      rw [h1] at h
      exact ih s1 s' h (consolidateMesh_table_nodup s s1 kv.1 kv.2 h1 hnd)

theorem allocateBuffers_table (pa na : Bool) (s s' : MeshConsolidator)
    (h : allocateBuffers pa na s = .ok s') : s'.batchInfoMap = s.batchInfoMap := by
  cases pa with
  | false =>
    rw [allocateBuffers_position_fails] at h
    cases h
  | true =>
    cases na <;>
    · have e : Except.ok _ = Except.ok s' := h
      injection e with e'
      rw [← e']

theorem construct_table_nodup (pa na : Bool) (m : UnorderedMap Mesh) (mc : MeshConsolidator)
    (h : construct pa na m = .ok mc) : (keys mc.batchInfoMap).Nodup := by
  unfold construct processMeshes at h
  cases h1 : allocateBuffers pa na (sumBytes init m) with
  | error e =>
    have : (allocateBuffers pa na (sumBytes init m) >>= fun s => consolidateAll s m)
        = .ok mc := h
    rw [h1] at this
    cases this
  | ok s =>
    have : (allocateBuffers pa na (sumBytes init m) >>= fun s => consolidateAll s m)
        = .ok mc := h
    rw [h1] at this
    refine consolidateAll_table_nodup m s mc this ?_
    rw [allocateBuffers_table pa na _ s h1, sumBytes_eq]
    simp [init, keys]

/-- C8, as stated, fails: the output map keeps an entry it already had under
a key that is not in the batch table, so it is not equal to the batch table. -/
theorem getBatchInfo_counterexample :
    ∃ mc, construct true true [(1, triangle)] = .ok mc ∧
      find 7 (mc.getBatchInfo [(7, ⟨5, 5⟩)]).2 = some ⟨5, 5⟩ ∧
      find 7 mc.batchInfoMap = none :=
  ⟨_, rfl, rfl, rfl⟩

/-- C8, amended: for every constructed consolidator and every map passed as
the output argument, after getBatchInfo the output map holds the BatchInfo of
the batch table under every key of the table and keeps what it held under
every other key; it equals the batch table when the map passed in is empty;
the consolidator is unchanged; and calling it again on the result changes
nothing. -/
theorem getBatchInfo_copies (pa na : Bool) (m : UnorderedMap Mesh) (mc : MeshConsolidator)
    (h : construct pa na m = .ok mc) (out : UnorderedMap BatchInfo) :
    (∀ key, find key (mc.getBatchInfo out).2
      = match find key mc.batchInfoMap with
        | some b => some b
        | none => find key out) ∧
    (mc.getBatchInfo []).2 = mc.batchInfoMap ∧
    (mc.getBatchInfo out).1 = mc ∧
    ((mc.getBatchInfo out).1.getBatchInfo (mc.getBatchInfo out).2).2
      = (mc.getBatchInfo out).2 := by
  have hnd := construct_table_nodup pa na m mc h
  refine ⟨fun key => find_foldl_assign mc.batchInfoMap out key hnd, ?_, rfl, ?_⟩
  · show mc.batchInfoMap.foldl (fun o kv => assign kv.1 kv.2 o) [] = _
    rw [foldl_assign_append mc.batchInfoMap [] (by simpa [keys] using hnd)]
    rfl
  · show mc.batchInfoMap.foldl (fun o kv => assign kv.1 kv.2 o)
      (mc.batchInfoMap.foldl (fun o kv => assign kv.1 kv.2 o) out) = _
    apply foldl_assign_fixed
    intro kv hkv
    rw [find_foldl_assign mc.batchInfoMap out kv.1 hnd, find_of_mem_nodup _ hnd kv hkv]

theorem getBatchInfo_copies_witness :
    ∃ mc, construct true true [(1, triangle), (2, segment)] = .ok mc ∧
      (∀ key, find key (mc.getBatchInfo [(7, ⟨5, 5⟩), (2, ⟨9, 9⟩)]).2
        = match find key mc.batchInfoMap with
          | some b => some b
          | none => find key [(7, ⟨5, 5⟩), (2, ⟨9, 9⟩)]) ∧
      (mc.getBatchInfo []).2 = mc.batchInfoMap ∧
      (mc.getBatchInfo [(7, ⟨5, 5⟩), (2, ⟨9, 9⟩)]).1 = mc ∧
      ((mc.getBatchInfo [(7, ⟨5, 5⟩), (2, ⟨9, 9⟩)]).1.getBatchInfo
          (mc.getBatchInfo [(7, ⟨5, 5⟩), (2, ⟨9, 9⟩)]).2).2
        = (mc.getBatchInfo [(7, ⟨5, 5⟩), (2, ⟨9, 9⟩)]).2 :=
  ⟨_, rfl, getBatchInfo_copies true true [(1, triangle), (2, segment)] _ rfl
    [(7, ⟨5, 5⟩), (2, ⟨9, 9⟩)]⟩

/-! ## MeshConsolidator: the two-mesh scenario -/

/-- C9, as stated, fails: when the map iterates B (5 vertices) before A (10
vertices), the startIndex values are 0 for B and 5 for A, which is not a
permutation of 0 and 10. -/
theorem two_mesh_scenario_counterexample :
    meshA.PositionsFollowSpec ∧ meshB.PositionsFollowSpec ∧
    meshA.getNumVertexPositions = 10 ∧ meshB.getNumVertexPositions = 5 ∧
    ∃ mc, construct true true [(2, meshB), (1, meshA)] = .ok mc ∧
      find 1 mc.batchInfoMap = some ⟨5, 10⟩ ∧ find 2 mc.batchInfoMap = some ⟨0, 5⟩ := by
  refine ⟨by decide, by decide, rfl, rfl, ?_⟩
  obtain ⟨mc, h, _, htab⟩ := construct_table [(2, meshB), (1, meshA)] (by decide)
  refine ⟨mc, h, ?_, ?_⟩
  · rw [htab]; decide
  · rw [htab]; decide

/-- C9, amended: constructing a MeshConsolidator from exactly two meshes in
the spec's Mesh model, A of 10 vertices and B of 5 vertices, yields a batch
table with two entries whose numIndices are 10 for A and 5 for B and
totalPositionBytes equal to 15 times the bytes per vertex position; the
startIndex values are 0 for A and 10 for B when the map iterates A first, and
0 for B and 5 for A when it iterates B first, so the two ranges do not
overlap in either order. -/
theorem two_mesh_scenario (idA idB : MeshId) (A B : Mesh) (hne : idA ≠ idB)
    (hA : A.PositionsFollowSpec) (hB : B.PositionsFollowSpec)
    (hAn : A.getNumVertexPositions = 10) (hBn : B.getNumVertexPositions = 5) :
    (∃ mc, construct true true [(idA, A), (idB, B)] = .ok mc ∧
      mc.batchInfoMap.length = 2 ∧
      find idA mc.batchInfoMap = some ⟨0, 10⟩ ∧ find idB mc.batchInfoMap = some ⟨10, 5⟩ ∧
      mc.totalPositionBytes = 15 * (num_floats_per_vertex * sizeof_float)) ∧
    (∃ mc, construct true true [(idB, B), (idA, A)] = .ok mc ∧
      mc.batchInfoMap.length = 2 ∧
      find idB mc.batchInfoMap = some ⟨0, 5⟩ ∧ find idA mc.batchInfoMap = some ⟨5, 10⟩ ∧
      mc.totalPositionBytes = 15 * (num_floats_per_vertex * sizeof_float)) := by
  unfold Mesh.PositionsFollowSpec at hA hB
  rw [hAn] at hA
  rw [hBn] at hB
  constructor
  · obtain ⟨mc, h, htot, htab⟩ := construct_table [(idA, A), (idB, B)]
      (by simp [keys, hne])
    refine ⟨mc, h, ?_, ?_, ?_, ?_⟩
    · rw [htab]; rfl
    · rw [htab]; simp [entriesFrom, find, hAn, num_floats_per_vertex]
    · rw [htab]
      simp [entriesFrom, find, hne, hA, hBn, num_floats_per_vertex, sizeof_float]
    · rw [htot]
      simp [sumPositionBytes, hA, hB, num_floats_per_vertex, sizeof_float]
  · obtain ⟨mc, h, htot, htab⟩ := construct_table [(idB, B), (idA, A)]
      (by simp [keys, Ne.symm hne])
    refine ⟨mc, h, ?_, ?_, ?_, ?_⟩
    · rw [htab]; rfl
    · rw [htab]; simp [entriesFrom, find, hBn, num_floats_per_vertex]
    · rw [htab]
      simp [entriesFrom, find, Ne.symm hne, hB, hAn, num_floats_per_vertex, sizeof_float]
    · rw [htot]
      simp [sumPositionBytes, hA, hB, num_floats_per_vertex, sizeof_float]

theorem two_mesh_scenario_witness :
    (1 : MeshId) ≠ 2 ∧ meshA.PositionsFollowSpec ∧ meshB.PositionsFollowSpec ∧
    meshA.getNumVertexPositions = 10 ∧ meshB.getNumVertexPositions = 5 ∧
    (∃ mc, construct true true [(1, meshA), (2, meshB)] = .ok mc ∧
      mc.batchInfoMap.length = 2 ∧
      find 1 mc.batchInfoMap = some ⟨0, 10⟩ ∧ find 2 mc.batchInfoMap = some ⟨10, 5⟩ ∧
      mc.totalPositionBytes = 15 * (num_floats_per_vertex * sizeof_float)) ∧
    (∃ mc, construct true true [(2, meshB), (1, meshA)] = .ok mc ∧
      mc.batchInfoMap.length = 2 ∧
      find 2 mc.batchInfoMap = some ⟨0, 5⟩ ∧ find 1 mc.batchInfoMap = some ⟨5, 10⟩ ∧
      mc.totalPositionBytes = 15 * (num_floats_per_vertex * sizeof_float)) :=
  ⟨by decide, by decide, by decide, rfl, rfl,
    two_mesh_scenario 1 2 meshA meshB (by decide) (by decide) (by decide) rfl rfl⟩

/-! ## Frustum: the projection-matrix cache -/

namespace Frustum

variable {F M : Type}

theorem cacheValid_apply (glm : Glm F M) (self : Frustum F M) (call : Call F)
    (h : CacheValid glm self) : CacheValid glm (call.apply glm self) := by
  cases call with
  | setFieldOfViewY x => exact Or.inl rfl
  | setAspectRatio x => exact Or.inl rfl
  | setNearZDistance x => exact Or.inl rfl
  | setFarZDistance x => exact Or.inl rfl
  | getProjectionMatrix =>
    right
    cases hr : self.recalcPerspectiveMatrix with
    | true => simp [Call.apply, getProjectionMatrix, hr]
    | false =>
      rcases h with h | h
      · rw [hr] at h; cases h
      · simp [Call.apply, getProjectionMatrix, hr, h]

theorem cacheValid_run (glm : Glm F M) (calls : List (Call F)) :
    ∀ self : Frustum F M, CacheValid glm self → CacheValid glm (run glm calls self) := by
  induction calls with
  | nil => intro self h; exact h
  | cons call rest ih =>
    intro self h
    exact ih _ (cacheValid_apply glm self call h)

theorem getProjectionMatrix_of_cacheValid (glm : Glm F M) (self : Frustum F M)
    (h : CacheValid glm self) :
    (self.getProjectionMatrix glm).1
      = glm.perspective self.fieldOfViewY self.aspectRatio self.zNear self.zFar := by
  cases hr : self.recalcPerspectiveMatrix with
  | true => simp [getProjectionMatrix, hr]
  | false =>
    rcases h with h | h
    · rw [hr] at h; cases h
    · simp [getProjectionMatrix, hr, h]

/-- C10: for every perspective-constructed Frustum and every finite sequence
of setter and getProjectionMatrix calls, a following getProjectionMatrix()
returns perspective(fieldOfViewY, aspectRatio, zNear, zFar) of the current
field values; in particular each setter followed by getProjectionMatrix()
returns the perspective matrix with the new parameter in place. -/
theorem perspective_cache_correct (glm : Glm F M) (fieldOfViewY aspectRatio zNear zFar : F)
    (calls : List (Call F)) :
    ((run glm calls (perspective glm fieldOfViewY aspectRatio zNear zFar)).getProjectionMatrix
        glm).1
      = glm.perspective
          (run glm calls (perspective glm fieldOfViewY aspectRatio zNear zFar)).getFieldOfViewY
          (run glm calls (perspective glm fieldOfViewY aspectRatio zNear zFar)).getAspectRatio
          (run glm calls (perspective glm fieldOfViewY aspectRatio zNear zFar)).getNearZDistance
          (run glm calls (perspective glm fieldOfViewY aspectRatio zNear zFar)).getFarZDistance
    ∧ ∀ x : F,
      (((run glm calls (perspective glm fieldOfViewY aspectRatio zNear zFar)).setFieldOfViewY
          x).getProjectionMatrix glm).1
        = glm.perspective x
          (run glm calls (perspective glm fieldOfViewY aspectRatio zNear zFar)).getAspectRatio
          (run glm calls (perspective glm fieldOfViewY aspectRatio zNear zFar)).getNearZDistance
          (run glm calls (perspective glm fieldOfViewY aspectRatio zNear zFar)).getFarZDistance
      ∧ (((run glm calls (perspective glm fieldOfViewY aspectRatio zNear zFar)).setAspectRatio
          x).getProjectionMatrix glm).1
        = glm.perspective
          (run glm calls (perspective glm fieldOfViewY aspectRatio zNear zFar)).getFieldOfViewY
          x
          (run glm calls (perspective glm fieldOfViewY aspectRatio zNear zFar)).getNearZDistance
          (run glm calls (perspective glm fieldOfViewY aspectRatio zNear zFar)).getFarZDistance
      ∧ (((run glm calls (perspective glm fieldOfViewY aspectRatio zNear zFar)).setNearZDistance
          x).getProjectionMatrix glm).1
        = glm.perspective
          (run glm calls (perspective glm fieldOfViewY aspectRatio zNear zFar)).getFieldOfViewY
          (run glm calls (perspective glm fieldOfViewY aspectRatio zNear zFar)).getAspectRatio
          x
          (run glm calls (perspective glm fieldOfViewY aspectRatio zNear zFar)).getFarZDistance
      ∧ (((run glm calls (perspective glm fieldOfViewY aspectRatio zNear zFar)).setFarZDistance
          x).getProjectionMatrix glm).1
        = glm.perspective
          (run glm calls (perspective glm fieldOfViewY aspectRatio zNear zFar)).getFieldOfViewY
          (run glm calls (perspective glm fieldOfViewY aspectRatio zNear zFar)).getAspectRatio
          (run glm calls (perspective glm fieldOfViewY aspectRatio zNear zFar)).getNearZDistance
          x := by
  have hinit : CacheValid glm (perspective glm fieldOfViewY aspectRatio zNear zFar) :=
    Or.inr rfl
  refine ⟨getProjectionMatrix_of_cacheValid glm _ (cacheValid_run glm calls _ hinit), ?_⟩
  intro x
  exact ⟨getProjectionMatrix_of_cacheValid glm _ (Or.inl rfl),
    getProjectionMatrix_of_cacheValid glm _ (Or.inl rfl),
    getProjectionMatrix_of_cacheValid glm _ (Or.inl rfl),
    getProjectionMatrix_of_cacheValid glm _ (Or.inl rfl)⟩

end Frustum

/-! ## Frustum: idempotence, dirty flag, setters, variant -/

namespace Frustum

variable {F M : Type}

/-- C11: for every Frustum state, clean or dirty and of either variant,
calling getProjectionMatrix() twice with no setter call in between returns the
same matrix both times, and the second call leaves the state as the first
left it. -/
theorem getProjectionMatrix_idempotent (glm : Glm F M) (self : Frustum F M) :
    (((self.getProjectionMatrix glm).2).getProjectionMatrix glm).1
      = (self.getProjectionMatrix glm).1 ∧
    (((self.getProjectionMatrix glm).2).getProjectionMatrix glm).2
      = (self.getProjectionMatrix glm).2 := by
  cases hr : self.recalcPerspectiveMatrix <;> simp [getProjectionMatrix, hr]

/-- C12: every constructor produces a clean instance; every setter leaves the
instance dirty, whatever it was before; getProjectionMatrix leaves it clean;
the field accessors, isPerspective and isOrthographic leave the flag as it
was. -/
theorem dirty_flag_state_machine [Zero F] [Sub F] [Div F] (glm : Glm F M) :
    (Frustum.default glm).recalcPerspectiveMatrix = false ∧
    (∀ left right bottom top zNear zFar : F,
      (orthographic glm left right bottom top zNear zFar).recalcPerspectiveMatrix = false) ∧
    (∀ fieldOfViewY aspectRatio zNear zFar : F,
      (perspective glm fieldOfViewY aspectRatio zNear zFar).recalcPerspectiveMatrix = false) ∧
    (∀ (self : Frustum F M) (x : F),
      (self.setFieldOfViewY x).recalcPerspectiveMatrix = true ∧
      (self.setAspectRatio x).recalcPerspectiveMatrix = true ∧
      (self.setNearZDistance x).recalcPerspectiveMatrix = true ∧
      (self.setFarZDistance x).recalcPerspectiveMatrix = true) ∧
    (∀ self : Frustum F M,
      (self.getProjectionMatrix glm).2.recalcPerspectiveMatrix = false) ∧
    (∀ (self : Frustum F M) (query : Query),
      (query.apply self).recalcPerspectiveMatrix = self.recalcPerspectiveMatrix) := by
  refine ⟨rfl, fun _ _ _ _ _ _ => rfl, fun _ _ _ _ => rfl,
    fun _ _ => ⟨rfl, rfl, rfl, rfl⟩, ?_, ?_⟩
  · intro self
    cases hr : self.recalcPerspectiveMatrix <;> simp [getProjectionMatrix, hr]
  · intro self query
    cases query <;> rfl

/-- C13: for every Frustum state and every value x, each setter stores x in
its own field, so that the matching accessor returns x, sets the dirty flag,
and leaves the other three parameters, the variant flag and the cached
projection matrix unchanged. -/
theorem setters_touch_own_field (self : Frustum F M) (x : F) :
    ((self.setFieldOfViewY x).getFieldOfViewY = x ∧
      (self.setFieldOfViewY x).recalcPerspectiveMatrix = true ∧
      (self.setFieldOfViewY x).getAspectRatio = self.getAspectRatio ∧
      (self.setFieldOfViewY x).getNearZDistance = self.getNearZDistance ∧
      (self.setFieldOfViewY x).getFarZDistance = self.getFarZDistance ∧
      (self.setFieldOfViewY x)._isPerspective = self._isPerspective ∧
      (self.setFieldOfViewY x).projectionMatrix = self.projectionMatrix) ∧
    ((self.setAspectRatio x).getAspectRatio = x ∧
      (self.setAspectRatio x).recalcPerspectiveMatrix = true ∧
      (self.setAspectRatio x).getFieldOfViewY = self.getFieldOfViewY ∧
      (self.setAspectRatio x).getNearZDistance = self.getNearZDistance ∧
      (self.setAspectRatio x).getFarZDistance = self.getFarZDistance ∧
      (self.setAspectRatio x)._isPerspective = self._isPerspective ∧
      (self.setAspectRatio x).projectionMatrix = self.projectionMatrix) ∧
    ((self.setNearZDistance x).getNearZDistance = x ∧
      (self.setNearZDistance x).recalcPerspectiveMatrix = true ∧
      (self.setNearZDistance x).getFieldOfViewY = self.getFieldOfViewY ∧
      (self.setNearZDistance x).getAspectRatio = self.getAspectRatio ∧
      (self.setNearZDistance x).getFarZDistance = self.getFarZDistance ∧
      (self.setNearZDistance x)._isPerspective = self._isPerspective ∧
      (self.setNearZDistance x).projectionMatrix = self.projectionMatrix) ∧
    ((self.setFarZDistance x).getFarZDistance = x ∧
      (self.setFarZDistance x).recalcPerspectiveMatrix = true ∧
      (self.setFarZDistance x).getFieldOfViewY = self.getFieldOfViewY ∧
      (self.setFarZDistance x).getAspectRatio = self.getAspectRatio ∧
      (self.setFarZDistance x).getNearZDistance = self.getNearZDistance ∧
      (self.setFarZDistance x)._isPerspective = self._isPerspective ∧
      (self.setFarZDistance x).projectionMatrix = self.projectionMatrix) :=
  ⟨⟨rfl, rfl, rfl, rfl, rfl, rfl, rfl⟩, ⟨rfl, rfl, rfl, rfl, rfl, rfl, rfl⟩,
    ⟨rfl, rfl, rfl, rfl, rfl, rfl, rfl⟩, ⟨rfl, rfl, rfl, rfl, rfl, rfl, rfl⟩⟩

theorem apply_isPerspective (glm : Glm F M) (self : Frustum F M) (call : Call F) :
    (call.apply glm self)._isPerspective = self._isPerspective := by
  cases call with
  | getProjectionMatrix =>
    cases hr : self.recalcPerspectiveMatrix <;> simp [Call.apply, getProjectionMatrix, hr]
  | _ => rfl

theorem run_isPerspective (glm : Glm F M) (calls : List (Call F)) :
    ∀ self : Frustum F M, (run glm calls self)._isPerspective = self._isPerspective := by
  induction calls with
  | nil => intro self; rfl
  | cons call rest ih =>
    intro self
    show (run glm rest (call.apply glm self))._isPerspective = _
    rw [ih, apply_isPerspective]

/-- C14: for every Frustum reached from one of the three constructors by any
sequence of setter and getProjectionMatrix calls, exactly one of
isPerspective() and isOrthographic() is true, and it is the one fixed at
construction: isPerspective for the perspective constructor, isOrthographic
for the orthographic and the default constructor. -/
theorem variant_fixed_at_construction [Zero F] [Sub F] [Div F] (glm : Glm F M)
    (calls : List (Call F)) :
    (∀ fieldOfViewY aspectRatio zNear zFar : F,
      (run glm calls (perspective glm fieldOfViewY aspectRatio zNear zFar)).isPerspective
          = true ∧
      (run glm calls (perspective glm fieldOfViewY aspectRatio zNear zFar)).isOrthographic
          = false) ∧
    (∀ left right bottom top zNear zFar : F,
      (run glm calls (orthographic glm left right bottom top zNear zFar)).isPerspective
          = false ∧
      (run glm calls (orthographic glm left right bottom top zNear zFar)).isOrthographic
          = true) ∧
    ((run glm calls (Frustum.default glm)).isPerspective = false ∧
      (run glm calls (Frustum.default glm)).isOrthographic = true) := by
  refine ⟨fun _ _ _ _ => ?_, fun _ _ _ _ _ _ => ?_, ?_⟩ <;>
    simp [isPerspective, isOrthographic, run_isPerspective, perspective, orthographic,
      Frustum.default]

end Frustum

/-! ## Frustum: the orthographic variant -/

namespace Frustum

variable {F M : Type}

/-- C15: for every left, right, bottom, top with top different from bottom
and every zNear, zFar, the orthographic constructor yields a Frustum with
isOrthographic() true, isPerspective() false, getFieldOfViewY() zero,
getAspectRatio() equal to (right-left)/(top-bottom), getNearZDistance() zNear
and getFarZDistance() zFar, in the clean state, whose getProjectionMatrix()
is ortho(left, right, bottom, top, zNear, zFar); and for left=-1, right=1,
bottom=-1, top=1, zNear=0.1, zFar=100, computed in exact arithmetic, the
aspect ratio is 1. -/
theorem orthographic_construction [Zero F] [Sub F] [Div F] (glm : Glm F M)
    (left right bottom top zNear zFar : F) (_htop : top ≠ bottom) (glmQ : Glm ℚ M) :
    (orthographic glm left right bottom top zNear zFar).isOrthographic = true ∧
    (orthographic glm left right bottom top zNear zFar).isPerspective = false ∧
    (orthographic glm left right bottom top zNear zFar).getFieldOfViewY = 0 ∧
    (orthographic glm left right bottom top zNear zFar).getAspectRatio
      = (right - left) / (top - bottom) ∧
    (orthographic glm left right bottom top zNear zFar).getNearZDistance = zNear ∧
    (orthographic glm left right bottom top zNear zFar).getFarZDistance = zFar ∧
    (orthographic glm left right bottom top zNear zFar).recalcPerspectiveMatrix = false ∧
    ((orthographic glm left right bottom top zNear zFar).getProjectionMatrix glm).1
      = glm.ortho left right bottom top zNear zFar ∧
    (orthographic glmQ (-1) 1 (-1) 1 (1 / 10) 100).getAspectRatio = 1 := by
  refine ⟨rfl, rfl, rfl, rfl, rfl, rfl, rfl, rfl, ?_⟩
  show ((1 : ℚ) - -1) / (1 - -1) = 1
  norm_num

theorem orthographic_construction_witness :
    (1 : ℚ) ≠ -1 ∧
    (orthographic symbolicGlm (-1) 1 (-1) 1 (1 / 10) 100).isOrthographic = true ∧
    (orthographic symbolicGlm (-1) 1 (-1) 1 (1 / 10) 100).isPerspective = false ∧
    (orthographic symbolicGlm (-1) 1 (-1) 1 (1 / 10) 100).getFieldOfViewY = 0 ∧
    (orthographic symbolicGlm (-1) 1 (-1) 1 (1 / 10) 100).getAspectRatio
      = ((1 : ℚ) - -1) / (1 - -1) ∧
    (orthographic symbolicGlm (-1) 1 (-1) 1 (1 / 10) 100).getNearZDistance = 1 / 10 ∧
    (orthographic symbolicGlm (-1) 1 (-1) 1 (1 / 10) 100).getFarZDistance = 100 ∧
    (orthographic symbolicGlm (-1) 1 (-1) 1 (1 / 10) 100).recalcPerspectiveMatrix = false ∧
    ((orthographic symbolicGlm (-1) 1 (-1) 1 (1 / 10) 100).getProjectionMatrix symbolicGlm).1
      = SymbolicMatrix.ortho (-1) 1 (-1) 1 (1 / 10) 100 ∧
    (orthographic symbolicGlm (-1) 1 (-1) 1 (1 / 10) 100).getAspectRatio = 1 :=
  ⟨by norm_num,
    orthographic_construction symbolicGlm (-1) 1 (-1) 1 (1 / 10) 100 (by norm_num) symbolicGlm⟩

/-- C16, as stated, fails: on an orthographic-constructed Frustum, after
setNearZDistance, getProjectionMatrix() returns the perspective matrix of the
fields and not the ortho matrix computed by the constructor. -/
theorem orthographic_recompute_counterexample :
    (((orthographic symbolicGlm (-1) 1 (-1) 1 (1 / 10) 100).setNearZDistance
        1).getProjectionMatrix symbolicGlm).1
      = SymbolicMatrix.perspective 0 (((1 : ℚ) - -1) / (1 - -1)) 1 100 ∧
    (((orthographic symbolicGlm (-1) 1 (-1) 1 (1 / 10) 100).setNearZDistance
        1).getProjectionMatrix symbolicGlm).1
      ≠ symbolicGlm.ortho (-1) 1 (-1) 1 (1 / 10) 100 := by
  refine ⟨rfl, ?_⟩
  show SymbolicMatrix.perspective _ _ _ _ ≠ SymbolicMatrix.ortho _ _ _ _ _ _
  exact fun h => SymbolicMatrix.noConfusion h

theorem run_of_no_setter (glm : Glm F M) (calls : List (Call F)) :
    ∀ self : Frustum F M, self.recalcPerspectiveMatrix = false →
      (∀ call ∈ calls, call = Call.getProjectionMatrix) → run glm calls self = self := by
  induction calls with
  | nil => intro self _ _; rfl
  | cons call rest ih =>
    intro self hclean hall
    have hc := hall call (List.mem_cons_self _ _)
    subst hc
    have hstep : Call.apply glm self (Call.getProjectionMatrix : Call F) = self := by
      simp [Call.apply, getProjectionMatrix, hclean]
    show run glm rest (Call.apply glm self Call.getProjectionMatrix) = self
    rw [hstep]
    exact ih self hclean (fun c hcm => hall c (List.mem_cons_of_mem _ hcm))

/-- C16, amended: the orthographic variant does not recompute while no setter
is called: for every orthographic-constructed Frustum and every sequence of
getProjectionMatrix calls, getProjectionMatrix() returns the matrix computed
by the constructor, ortho(left, right, bottom, top, zNear, zFar), and the
frustum is as constructed. -/
theorem orthographic_kept_without_setter [Zero F] [Sub F] [Div F] (glm : Glm F M)
    (left right bottom top zNear zFar : F) (calls : List (Call F))
    (hcalls : ∀ call ∈ calls, call = Call.getProjectionMatrix) :
    ((run glm calls (orthographic glm left right bottom top zNear zFar)).getProjectionMatrix
        glm).1 = glm.ortho left right bottom top zNear zFar ∧
    run glm calls (orthographic glm left right bottom top zNear zFar)
      = orthographic glm left right bottom top zNear zFar := by
  have h := run_of_no_setter glm calls (orthographic glm left right bottom top zNear zFar)
    rfl hcalls
  rw [h]
  exact ⟨rfl, rfl⟩

theorem orthographic_kept_without_setter_witness :
    (∀ call ∈ ([Call.getProjectionMatrix, Call.getProjectionMatrix] : List (Call ℚ)),
      call = Call.getProjectionMatrix) ∧
    ((run symbolicGlm [Call.getProjectionMatrix, Call.getProjectionMatrix]
        (orthographic symbolicGlm (-1) 1 (-1) 1 (1 / 10) 100)).getProjectionMatrix
        symbolicGlm).1 = SymbolicMatrix.ortho (-1) 1 (-1) 1 (1 / 10) 100 ∧
    run symbolicGlm [Call.getProjectionMatrix, Call.getProjectionMatrix]
        (orthographic symbolicGlm (-1) 1 (-1) 1 (1 / 10) 100)
      = orthographic symbolicGlm (-1) 1 (-1) 1 (1 / 10) 100 :=
  ⟨by simp, orthographic_kept_without_setter symbolicGlm (-1) 1 (-1) 1 (1 / 10) 100
    [Call.getProjectionMatrix, Call.getProjectionMatrix] (by simp)⟩

theorem apply_setter_dirty (glm : Glm F M) (self : Frustum F M) (call : Call F)
    (h : call.isSetter = true) : (call.apply glm self).recalcPerspectiveMatrix = true := by
  cases call with
  | getProjectionMatrix => cases h
  | _ => rfl

/-- C17: for every orthographic-constructed Frustum, in the state reached by
any sequence of calls, after one setter call the instance is dirty and the
next getProjectionMatrix() returns perspective(fieldOfViewY, aspectRatio,
zNear, zFar) of the current fields, while isOrthographic() still returns true
and isPerspective() false, before and after that getProjectionMatrix(). -/
theorem orthographic_conflation [Zero F] [Sub F] [Div F] (glm : Glm F M)
    (left right bottom top zNear zFar : F) (calls : List (Call F)) (setter : Call F)
    (hsetter : setter.isSetter = true) :
    (setter.apply glm
        (run glm calls (orthographic glm left right bottom top zNear zFar))
      ).recalcPerspectiveMatrix = true ∧
    ((setter.apply glm
        (run glm calls (orthographic glm left right bottom top zNear zFar))
      ).getProjectionMatrix glm).1
      = glm.perspective
        (setter.apply glm
          (run glm calls (orthographic glm left right bottom top zNear zFar))).getFieldOfViewY
        (setter.apply glm
          (run glm calls (orthographic glm left right bottom top zNear zFar))).getAspectRatio
        (setter.apply glm
          (run glm calls (orthographic glm left right bottom top zNear zFar))).getNearZDistance
        (setter.apply glm
          (run glm calls (orthographic glm left right bottom top zNear zFar))).getFarZDistance ∧
    (setter.apply glm
        (run glm calls (orthographic glm left right bottom top zNear zFar))
      ).isOrthographic = true ∧
    (setter.apply glm
        (run glm calls (orthographic glm left right bottom top zNear zFar))
      ).isPerspective = false ∧
    ((setter.apply glm
        (run glm calls (orthographic glm left right bottom top zNear zFar))
      ).getProjectionMatrix glm).2.isOrthographic = true ∧
    ((setter.apply glm
        (run glm calls (orthographic glm left right bottom top zNear zFar))
      ).getProjectionMatrix glm).2.isPerspective = false := by
  have hdirty := apply_setter_dirty glm
    (run glm calls (orthographic glm left right bottom top zNear zFar)) setter hsetter
  have hvar : (setter.apply glm
      (run glm calls (orthographic glm left right bottom top zNear zFar)))._isPerspective
      = false := by
    rw [apply_isPerspective, run_isPerspective]
    rfl
  have hafter := apply_isPerspective glm (setter.apply glm
    (run glm calls (orthographic glm left right bottom top zNear zFar)))
    Call.getProjectionMatrix
  refine ⟨hdirty, getProjectionMatrix_of_cacheValid glm _ (Or.inl hdirty), ?_, ?_, ?_, ?_⟩
  · simp [isOrthographic, hvar]
  · simp [isPerspective, hvar]
  · have : ((setter.apply glm
        (run glm calls (orthographic glm left right bottom top zNear zFar))
        ).getProjectionMatrix glm).2._isPerspective = false := by
      rw [← hvar]; exact hafter
    simp [isOrthographic, this]
  · have : ((setter.apply glm
        (run glm calls (orthographic glm left right bottom top zNear zFar))
        ).getProjectionMatrix glm).2._isPerspective = false := by
      rw [← hvar]; exact hafter
    simp [isPerspective, this]

theorem orthographic_conflation_witness :
    (Call.setNearZDistance (1 : ℚ)).isSetter = true ∧
    ((Call.setNearZDistance 1).apply symbolicGlm
        (run symbolicGlm [] (orthographic symbolicGlm (-1) 1 (-1) 1 (1 / 10) 100))
      ).recalcPerspectiveMatrix = true ∧
    (((Call.setNearZDistance 1).apply symbolicGlm
        (run symbolicGlm [] (orthographic symbolicGlm (-1) 1 (-1) 1 (1 / 10) 100))
      ).getProjectionMatrix symbolicGlm).1
      = SymbolicMatrix.perspective 0 (((1 : ℚ) - -1) / (1 - -1)) 1 100 ∧
    ((Call.setNearZDistance 1).apply symbolicGlm
        (run symbolicGlm [] (orthographic symbolicGlm (-1) 1 (-1) 1 (1 / 10) 100))
      ).isOrthographic = true ∧
    ((Call.setNearZDistance 1).apply symbolicGlm
        (run symbolicGlm [] (orthographic symbolicGlm (-1) 1 (-1) 1 (1 / 10) 100))
      ).isPerspective = false ∧
    (((Call.setNearZDistance 1).apply symbolicGlm
        (run symbolicGlm [] (orthographic symbolicGlm (-1) 1 (-1) 1 (1 / 10) 100))
      ).getProjectionMatrix symbolicGlm).2.isOrthographic = true ∧
    (((Call.setNearZDistance 1).apply symbolicGlm
        (run symbolicGlm [] (orthographic symbolicGlm (-1) 1 (-1) 1 (1 / 10) 100))
      ).getProjectionMatrix symbolicGlm).2.isPerspective = false :=
  ⟨rfl, orthographic_conflation symbolicGlm (-1) 1 (-1) 1 (1 / 10) 100 []
    (Call.setNearZDistance 1) rfl⟩

end Frustum

/-! ## MeshConsolidator: the list constructors -/

/-- C18, at the failing input: the list names the triangle (3 vertices) first
and the segment (2 vertices) second; when the map iterates the entry inserted
last first, the triangle is recorded with startIndex 2 and the segment with
startIndex 0, so the layout does not follow the order of the constructor
arguments. -/
theorem layout_ignores_argument_order :
    IterationOrder List.reverse ∧
    (keys [(1, triangle), (2, segment)]).Nodup ∧
    ∃ mc, ofMeshList List.reverse true true [(1, triangle), (2, segment)] = .ok mc ∧
      find 1 mc.batchInfoMap = some ⟨2, 3⟩ ∧ find 2 mc.batchInfoMap = some ⟨0, 2⟩ :=
  ⟨fun m => List.reverse_perm m, by decide, _, rfl, rfl, rfl⟩

theorem sumPositionBytes_take_add (m : UnorderedMap Mesh) :
    ∀ (i : Nat) (hi : i < m.length),
      sumPositionBytes (m.take i) + (m[i]).2.getNumVertexPositionBytes
        ≤ sumPositionBytes m := by
  induction m with
  | nil => intro i hi; simp at hi
  | cons kv rest ih =>
    intro i hi
    cases i with
    | zero => simp [sumPositionBytes]
    | succ j =>
      have := ih j (by simpa using hi)
      simp only [sumPositionBytes, List.take_succ_cons, List.map_cons, List.sum_cons,
        List.getElem_cons_succ] at this ⊢
      omega

theorem sumNormalBytes_take_add (m : UnorderedMap Mesh) :
    ∀ (i : Nat) (hi : i < m.length),
      sumNormalBytes (m.take i) + (m[i]).2.getNumVertexNormalBytes ≤ sumNormalBytes m := by
  induction m with
  | nil => intro i hi; simp at hi
  | cons kv rest ih =>
    intro i hi
    cases i with
    | zero => simp [sumNormalBytes]
    | succ j =>
      have := ih j (by simpa using hi)
      simp only [sumNormalBytes, List.take_succ_cons, List.map_cons, List.sum_cons,
        List.getElem_cons_succ] at this ⊢
      omega

theorem positionFloats_mul_eq (ms : UnorderedMap Mesh)
    (h : ∀ kv ∈ ms, kv.2.getNumVertexPositionBytes % sizeof_float = 0) :
    positionFloats ms * sizeof_float = sumPositionBytes ms := by
  induction ms with
  | nil => simp [positionFloats, sumPositionBytes]
  | cons kv rest ih =>
    have hk := h kv (List.mem_cons_self _ _)
    have hr := ih (fun x hx => h x (List.mem_cons_of_mem _ hx))
    simp only [positionFloats, sumPositionBytes, List.map_cons, List.sum_cons,
      sizeof_float] at hk hr ⊢
    omega

/-- C19: for every map of meshes, whatever their byte counts, with both
allocations successful every copy made by consolidateMesh is inside its
allocation, so construction returns: the copy for a mesh starts at the byte
offset of the tail and its end, offset plus the byte count of the mesh, is at
most totalPositionBytes in the position buffer and at most totalNormalBytes in
the normal buffer, which are the sizes of the two allocations; and when every
byte count is a multiple of sizeof(float), the two tails end exactly at the
totals. -/
theorem copies_stay_in_bounds (m : UnorderedMap Mesh) (_hnd : (keys m).Nodup) :
    ∃ mc, construct true true m = .ok mc ∧
      (∀ (i : Nat) (hi : i < m.length), ∃ s pb nb,
        stateBefore true true m i = .ok s ∧
        s.vertexPositionDataPtr_head = some pb ∧ s.normalDataPtr_head = some nb ∧
        pb.length = mc.totalPositionBytes ∧ nb.length = mc.totalNormalBytes ∧
        s.vertexPositionDataPtr_tail * sizeof_float + (m[i]).2.getNumVertexPositionBytes
          ≤ mc.totalPositionBytes ∧
        s.normalDataPtr_tail * sizeof_float + (m[i]).2.getNumVertexNormalBytes
          ≤ mc.totalNormalBytes) ∧
      ((∀ kv ∈ m, kv.2.getNumVertexPositionBytes % sizeof_float = 0 ∧
          kv.2.getNumVertexNormalBytes % sizeof_float = 0) →
        mc.vertexPositionDataPtr_tail * sizeof_float = mc.totalPositionBytes ∧
        mc.normalDataPtr_tail * sizeof_float = mc.totalNormalBytes) := by
  obtain ⟨mc, _, _, h, _, _, _, _, htp, htn, hpt, hnt, _⟩ := construct_spec m
  refine ⟨mc, h, ?_, ?_⟩
  · intro i hi
    obtain ⟨s, pb, nb, hs, hp, hn, hpl, hnl, _, _, hspt, hsnt, _⟩ := stateBefore_spec m i
    refine ⟨s, pb, nb, hs, hp, hn, by rw [hpl, htp], by rw [hnl, htn], ?_, ?_⟩
    · have h1 := positionFloats_mul_le (m.take i)
      have h2 := sumPositionBytes_take_add m i hi
      rw [hspt, htp]
      omega
    · have h1 := normalFloats_mul_le (m.take i)
      have h2 := sumNormalBytes_take_add m i hi
      rw [hsnt, htn]
      omega
  · intro hmul
    rw [hpt, hnt, htp, htn]
    exact ⟨positionFloats_mul_eq m (fun kv hkv => (hmul kv hkv).1),
      normalFloats_of_multiple m (fun kv hkv => (hmul kv hkv).2)⟩

theorem copies_stay_in_bounds_witness :
    (keys [(1, flat), (2, triangle)]).Nodup ∧
    (∀ kv ∈ ([(1, flat), (2, triangle)] : UnorderedMap Mesh),
      kv.2.getNumVertexPositionBytes % sizeof_float = 0 ∧
      kv.2.getNumVertexNormalBytes % sizeof_float = 0) ∧
    ∃ mc, construct true true [(1, flat), (2, triangle)] = .ok mc ∧
      (∀ (i : Nat) (hi : i < 2), ∃ s pb nb,
        stateBefore true true [(1, flat), (2, triangle)] i = .ok s ∧
        s.vertexPositionDataPtr_head = some pb ∧ s.normalDataPtr_head = some nb ∧
        pb.length = mc.totalPositionBytes ∧ nb.length = mc.totalNormalBytes ∧
        s.vertexPositionDataPtr_tail * sizeof_float
            + (([(1, flat), (2, triangle)] : UnorderedMap Mesh)[i]).2.getNumVertexPositionBytes
          ≤ mc.totalPositionBytes ∧
        s.normalDataPtr_tail * sizeof_float
            + (([(1, flat), (2, triangle)] : UnorderedMap Mesh)[i]).2.getNumVertexNormalBytes
          ≤ mc.totalNormalBytes) ∧
      mc.vertexPositionDataPtr_tail * sizeof_float = mc.totalPositionBytes ∧
      mc.normalDataPtr_tail * sizeof_float = mc.totalNormalBytes := by
  refine ⟨by decide, by decide, ?_⟩
  obtain ⟨mc, h, hcopies, hend⟩ :=
    copies_stay_in_bounds [(1, flat), (2, triangle)] (by decide)
  exact ⟨mc, h, hcopies, hend (by decide)⟩

/-! ## MeshConsolidator: duplicate names in the constructor list -/

theorem find_assign {α : Type} (key key' : MeshId) (val : α) (m : UnorderedMap α) :
    find key' (assign key val m) = if key = key' then some val else find key' m := by
  by_cases h : key = key'
  · subst h
    simp [find_assign_self]
  · simp only [h, if_false]
    exact find_assign_ne key key' val m (fun e => h e.symm)

theorem find_foldl_assign_congr {α : Type} (l : List (MeshId × α)) (key : MeshId) :
    ∀ m m' : UnorderedMap α, find key m = find key m' →
      find key (l.foldl (fun acc kv => assign kv.1 kv.2 acc) m)
        = find key (l.foldl (fun acc kv => assign kv.1 kv.2 acc) m') := by
  induction l with
  | nil => intro m m' h; exact h
  | cons kv rest ih =>
    intro m m' h
    simp only [List.foldl_cons]
    apply ih
    rw [find_assign, find_assign, h]

theorem keys_foldl_assign_nodup {α : Type} (l : List (MeshId × α)) :
    ∀ m : UnorderedMap α, (keys m).Nodup →
      (keys (l.foldl (fun acc kv => assign kv.1 kv.2 acc) m)).Nodup := by
  induction l with
  | nil => intro m h; exact h
  | cons kv rest ih =>
    intro m h
    simp only [List.foldl_cons]
    exact ih _ (keys_assign_nodup _ _ _ h)

theorem mem_of_find {α : Type} (m : UnorderedMap α) (key : MeshId) (val : α)
    (h : find key m = some val) : (key, val) ∈ m := by
  induction m with
  | nil => simp [find] at h
  | cons kv rest ih =>
    obtain ⟨k, v⟩ := kv
    by_cases hk : k = key
    · subst hk
      simp only [find, if_true, Option.some.injEq] at h
      subst h
      exact List.mem_cons_self _ _
    · simp only [find, hk, if_false] at h
      exact List.mem_cons_of_mem _ (ih h)

theorem perm_of_find_eq {α : Type} (m m' : UnorderedMap α) (hnd : (keys m).Nodup)
    (hnd' : (keys m').Nodup) (h : ∀ key, find key m = find key m') : m.Perm m' := by
  have hn : m.Nodup := List.Nodup.of_map Prod.fst hnd
  have hn' : m'.Nodup := List.Nodup.of_map Prod.fst hnd'
  rw [List.perm_ext_iff_of_nodup hn hn']
  intro kv
  constructor
  · intro hkv
    have := find_of_mem_nodup m hnd kv hkv
    rw [h] at this
    exact mem_of_find m' kv.1 kv.2 this
  · intro hkv
    have := find_of_mem_nodup m' hnd' kv hkv
    rw [← h] at this
    exact mem_of_find m kv.1 kv.2 this

theorem find_eq_of_perm {α : Type} (m m' : UnorderedMap α) (hnd : (keys m).Nodup)
    (hp : m.Perm m') (key : MeshId) : find key m = find key m' := by
  have hnd' : (keys m').Nodup := (List.Perm.map Prod.fst hp).nodup_iff.mp hnd
  cases h : find key m with
  | some v =>
    have hm : (key, v) ∈ m' := hp.subset (mem_of_find m key v h)
    exact (find_of_mem_nodup m' hnd' (key, v) hm).symm
  | none =>
    cases h' : find key m' with
    | none => rfl
    | some v =>
      have hm : (key, v) ∈ m := hp.symm.subset (mem_of_find m' key v h')
      rw [find_of_mem_nodup m hnd (key, v) hm] at h
      cases h

theorem fillMeshMap_nodup (l : List (MeshId × Mesh)) : (keys (fillMeshMap l)).Nodup :=
  keys_foldl_assign_nodup l [] (by simp [keys])

theorem find_fillMeshMap_drop_earlier (l1 l2 l3 : List (MeshId × Mesh)) (k : MeshId)
    (A B : Mesh) (key : MeshId) :
    find key (fillMeshMap (l1 ++ (k, A) :: l2 ++ (k, B) :: l3))
      = find key (fillMeshMap (l1 ++ l2 ++ (k, B) :: l3)) := by
  unfold fillMeshMap
  simp only [List.foldl_append, List.foldl_cons, List.append_assoc, List.cons_append]
  apply find_foldl_assign_congr
  rw [find_assign, find_assign]
  by_cases hk : k = key
  · simp [hk]
  · simp only [hk, if_false]
    apply find_foldl_assign_congr
    rw [find_assign]
    simp [hk]

theorem find_numIndices_entriesFrom (ms : UnorderedMap Mesh) (key : MeshId) :
    ∀ tail : Nat, (find key (entriesFrom tail ms)).map (fun b => b.numIndices)
      = (find key ms).map (fun mesh => mesh.getNumVertexPositions) := by
  induction ms with
  | nil => intro tail; rfl
  | cons kv rest ih =>
    intro tail
    obtain ⟨k, mesh⟩ := kv
    by_cases hk : k = key
    · simp [entriesFrom, find, hk]
    · simp only [entriesFrom, find, hk, if_false]
      exact ih _

theorem construct_full (m : UnorderedMap Mesh) (hnd : (keys m).Nodup) :
    ∃ mc, construct true true m = .ok mc ∧
      mc.totalPositionBytes = sumPositionBytes m ∧
      mc.totalNormalBytes = sumNormalBytes m ∧
      mc.batchInfoMap = entriesFrom 0 m := by
  obtain ⟨mc, _, _, h, _, _, _, _, hp, hn, _, _, htab⟩ := construct_spec m
  refine ⟨mc, h, hp, hn, ?_⟩
  rw [htab, assignAll_eq_append m 0 [] (by simpa [keys] using hnd)]
  rfl

theorem keepLast_cons_of_mem (kv : MeshId × Mesh) (rest : List (MeshId × Mesh))
    (h : kv.1 ∈ keys rest) : keepLast (kv :: rest) = keepLast rest := by
  show (if kv.1 ∈ keys rest then keepLast rest else kv :: keepLast rest) = _
  rw [if_pos h]

theorem keepLast_cons_of_not_mem (kv : MeshId × Mesh) (rest : List (MeshId × Mesh))
    (h : kv.1 ∉ keys rest) : keepLast (kv :: rest) = kv :: keepLast rest := by
  show (if kv.1 ∈ keys rest then keepLast rest else kv :: keepLast rest) = _
  rw [if_neg h]

theorem mem_keys_cons {α : Type} (kv : MeshId × α) (rest : UnorderedMap α) (key : MeshId) :
    key ∈ keys (kv :: rest) ↔ key = kv.1 ∨ key ∈ keys rest := by
  simp [keys]

theorem mem_keys_keepLast (l : List (MeshId × Mesh)) (key : MeshId) :
    key ∈ keys (keepLast l) ↔ key ∈ keys l := by
  induction l with
  | nil => rfl
  | cons kv rest ih =>
    by_cases h : kv.1 ∈ keys rest
    · rw [keepLast_cons_of_mem kv rest h, ih, mem_keys_cons]
      constructor
      · exact Or.inr
      · rintro (e | e)
        · rw [e]; exact h
        · exact e
    · rw [keepLast_cons_of_not_mem kv rest h, mem_keys_cons, mem_keys_cons, ih]

theorem keys_keepLast_nodup (l : List (MeshId × Mesh)) : (keys (keepLast l)).Nodup := by
  induction l with
  | nil => exact List.nodup_nil
  | cons kv rest ih =>
    by_cases h : kv.1 ∈ keys rest
    · rw [keepLast_cons_of_mem kv rest h]
      exact ih
    · rw [keepLast_cons_of_not_mem kv rest h]
      show (kv.1 :: keys (keepLast rest)).Nodup
      rw [List.nodup_cons]
      refine ⟨?_, ih⟩
      intro hmem
      exact h ((mem_keys_keepLast rest kv.1).mp hmem)

theorem find_ne_none_of_mem {α : Type} (m : UnorderedMap α) (key : MeshId)
    (h : key ∈ keys m) : find key m ≠ none := by
  induction m with
  | nil => simp [keys] at h
  | cons kv rest ih =>
    obtain ⟨k, v⟩ := kv
    by_cases hk : k = key
    · simp [find, hk]
    · simp only [find, hk, if_false]
      apply ih
      simp only [keys, List.map_cons, List.mem_cons] at h
      rcases h with e | e
      · exact absurd e.symm hk
      · exact e

theorem find_foldl_assign_keepLast (l : List (MeshId × Mesh)) (key : MeshId) :
    ∀ m : UnorderedMap Mesh,
      find key (l.foldl (fun acc kv => assign kv.1 kv.2 acc) m)
        = match find key (keepLast l) with
          | some mesh => some mesh
          | none => find key m := by
  induction l with
  | nil => intro m; rfl
  | cons kv rest ih =>
    intro m
    rw [List.foldl_cons, ih, find_assign]
    by_cases h : kv.1 ∈ keys rest
    · rw [keepLast_cons_of_mem kv rest h]
      cases hf : find key (keepLast rest) with
      | some mesh => rfl
      | none =>
        have hne : kv.1 ≠ key := by
          intro e
          rw [e] at h
          exact find_ne_none_of_mem (keepLast rest) key
            ((mem_keys_keepLast rest key).mpr h) hf
        simp [hne]
    · rw [keepLast_cons_of_not_mem kv rest h]
      by_cases hk : kv.1 = key
      · have hnone : find key (keepLast rest) = none := by
          apply find_eq_none_of_not_mem
          rw [mem_keys_keepLast, ← hk]
          exact h
        have hcons : find key (kv :: keepLast rest) = some kv.2 := by
          obtain ⟨k, v⟩ := kv
          simp only at hk
          simp [find, hk]
        rw [hnone, hcons]
        simp [hk]
      · have hcons : find key (kv :: keepLast rest) = find key (keepLast rest) := by
          obtain ⟨k, v⟩ := kv
          simp only at hk
          simp [find, hk]
        rw [hcons]
        simp [hk]

/-- The map that the constructor fills holds exactly the pairs of the list
that no later pair with the same key follows. -/
theorem fillMeshMap_perm_keepLast (l : List (MeshId × Mesh)) :
    (fillMeshMap l).Perm (keepLast l) := by
  apply perm_of_find_eq _ _ (fillMeshMap_nodup l) (keys_keepLast_nodup l)
  intro key
  unfold fillMeshMap
  rw [find_foldl_assign_keepLast]
  cases find key (keepLast l) <;> rfl

theorem keepLast_append_congr (l r r' : List (MeshId × Mesh))
    (hk : keepLast r = keepLast r') (hkeys : ∀ key, key ∈ keys r ↔ key ∈ keys r') :
    keepLast (l ++ r) = keepLast (l ++ r') := by
  induction l with
  | nil => exact hk
  | cons kv rest ih =>
    have hmem : kv.1 ∈ keys (rest ++ r) ↔ kv.1 ∈ keys (rest ++ r') := by
      simp only [keys, List.map_append, List.mem_append]
      simp only [keys] at hkeys
      rw [hkeys]
    rw [List.cons_append, List.cons_append]
    by_cases h : kv.1 ∈ keys (rest ++ r)
    · rw [keepLast_cons_of_mem _ _ h, keepLast_cons_of_mem _ _ (hmem.mp h), ih]
    · rw [keepLast_cons_of_not_mem _ _ h,
        keepLast_cons_of_not_mem _ _ (fun h' => h (hmem.mpr h')), ih]

theorem keepLast_drop_earlier (l1 l2 l3 : List (MeshId × Mesh)) (k : MeshId) (A B : Mesh) :
    keepLast (l1 ++ (k, A) :: l2 ++ (k, B) :: l3) = keepLast (l1 ++ l2 ++ (k, B) :: l3) := by
  have hin : k ∈ keys (l2 ++ (k, B) :: l3) := by simp [keys]
  rw [List.append_assoc, List.append_assoc, List.cons_append]
  apply keepLast_append_congr
  · exact keepLast_cons_of_mem (k, A) _ hin
  · intro key
    rw [mem_keys_cons]
    constructor
    · rintro (e | e)
      · rw [e]; exact hin
      · exact e
    · exact Or.inr

theorem find_keepLast_later (l1 l2 l3 : List (MeshId × Mesh)) (k : MeshId) (B : Mesh)
    (hlast : k ∉ keys l3) : find k (keepLast (l1 ++ l2 ++ (k, B) :: l3)) = some B := by
  have hB : (k, B) ∈ keepLast (l1 ++ l2 ++ (k, B) :: l3) := by
    generalize l1 ++ l2 = pre
    induction pre with
    | nil =>
      rw [List.nil_append, keepLast_cons_of_not_mem (k, B) l3 hlast]
      exact List.mem_cons_self _ _
    | cons kv rest ih =>
      rw [List.cons_append]
      by_cases h : kv.1 ∈ keys (rest ++ (k, B) :: l3)
      · rw [keepLast_cons_of_mem _ _ h]; exact ih
      · rw [keepLast_cons_of_not_mem _ _ h]; exact List.mem_cons_of_mem _ ih
  exact find_of_mem_nodup _ (keys_keepLast_nodup _) (k, B) hB

/-- C20: when the constructor list contains two pairs with the same key, the
pairs that survive are those of the list with the earlier pair removed; the
map that is consolidated holds exactly the surviving pairs, so the earlier
mesh reaches neither the totals nor the buffers, and when no still later pair
has the key, the later pair's mesh is the one consolidated under it.
Construction returns with totalPositionBytes and totalNormalBytes the sums
over the surviving pairs, which are the sizes of the two buffers, with the
keys of the batch table the keys of the surviving pairs, and with numIndices
of each entry the vertex count of the surviving mesh of that key; and
whatever the two iteration orders, these equal the totals, keys and
numIndices obtained from the list with the earlier pair removed. -/
theorem duplicate_names_collapse (order order' : UnorderedMap Mesh → UnorderedMap Mesh)
    (horder : IterationOrder order) (horder' : IterationOrder order')
    (l1 l2 l3 : List (MeshId × Mesh)) (k : MeshId) (A B : Mesh) :
    keepLast (l1 ++ (k, A) :: l2 ++ (k, B) :: l3) = keepLast (l1 ++ l2 ++ (k, B) :: l3) ∧
    (∃ m, m.Perm (keepLast (l1 ++ l2 ++ (k, B) :: l3)) ∧
      (k ∉ keys l3 → find k m = some B) ∧
      ∀ pa na, ofMeshList order pa na (l1 ++ (k, A) :: l2 ++ (k, B) :: l3)
        = construct pa na m) ∧
    ∃ mc mc' pb nb,
      ofMeshList order true true (l1 ++ (k, A) :: l2 ++ (k, B) :: l3) = .ok mc ∧
      ofMeshList order' true true (l1 ++ l2 ++ (k, B) :: l3) = .ok mc' ∧
      mc.totalPositionBytes = sumPositionBytes (keepLast (l1 ++ l2 ++ (k, B) :: l3)) ∧
      mc.totalNormalBytes = sumNormalBytes (keepLast (l1 ++ l2 ++ (k, B) :: l3)) ∧
      mc.vertexPositionDataPtr_head = some pb ∧ pb.length = mc.totalPositionBytes ∧
      mc.normalDataPtr_head = some nb ∧ nb.length = mc.totalNormalBytes ∧
      (keys mc.batchInfoMap).Perm (keys (keepLast (l1 ++ l2 ++ (k, B) :: l3))) ∧
      (∀ key, (find key mc.batchInfoMap).map (fun b => b.numIndices)
        = (find key (keepLast (l1 ++ l2 ++ (k, B) :: l3))).map
            (fun mesh => mesh.getNumVertexPositions)) ∧
      (k ∉ keys l3 →
        ∃ b, find k mc.batchInfoMap = some b ∧ b.numIndices = B.getNumVertexPositions) ∧
      mc.totalPositionBytes = mc'.totalPositionBytes ∧
      mc.totalNormalBytes = mc'.totalNormalBytes ∧
      (keys mc.batchInfoMap).Perm (keys mc'.batchInfoMap) ∧
      ∀ key, (find key mc.batchInfoMap).map (fun b => b.numIndices)
        = (find key mc'.batchInfoMap).map (fun b => b.numIndices) := by
  have hkeep := keepLast_drop_earlier l1 l2 l3 k A B
  have hm : (order (fillMeshMap (l1 ++ (k, A) :: l2 ++ (k, B) :: l3))).Perm
      (keepLast (l1 ++ l2 ++ (k, B) :: l3)) := by
    rw [← hkeep]
    exact (horder _).trans (fillMeshMap_perm_keepLast _)
  have hm' : (order' (fillMeshMap (l1 ++ l2 ++ (k, B) :: l3))).Perm
      (keepLast (l1 ++ l2 ++ (k, B) :: l3)) :=
    (horder' _).trans (fillMeshMap_perm_keepLast _)
  have hmm := hm.trans hm'.symm
  have hnd : (keys (order (fillMeshMap (l1 ++ (k, A) :: l2 ++ (k, B) :: l3)))).Nodup :=
    (List.Perm.map Prod.fst hm).nodup_iff.mpr (keys_keepLast_nodup _)
  have hnd' : (keys (order' (fillMeshMap (l1 ++ l2 ++ (k, B) :: l3)))).Nodup :=
    (List.Perm.map Prod.fst hm').nodup_iff.mpr (keys_keepLast_nodup _)
  have hfindB : k ∉ keys l3 →
      find k (order (fillMeshMap (l1 ++ (k, A) :: l2 ++ (k, B) :: l3))) = some B := by
    intro hlast
    rw [find_eq_of_perm _ _ hnd hm k]
    exact find_keepLast_later l1 l2 l3 k B hlast
  refine ⟨hkeep, ⟨_, hm, hfindB, fun _ _ => rfl⟩, ?_⟩
  obtain ⟨mc, pb, nb, h, hpb, hnb, hpl, hnl, hp, hn, _, _, htab0⟩ := construct_spec
    (order (fillMeshMap (l1 ++ (k, A) :: l2 ++ (k, B) :: l3)))
  have htab : mc.batchInfoMap
      = entriesFrom 0 (order (fillMeshMap (l1 ++ (k, A) :: l2 ++ (k, B) :: l3))) := by
    rw [htab0, assignAll_eq_append _ 0 [] (by simpa [keys] using hnd)]
    rfl
  obtain ⟨mc', h', hp', hn', htab'⟩ := construct_full _ hnd'
  have hnum : ∀ key, (find key mc.batchInfoMap).map (fun b => b.numIndices)
      = (find key (keepLast (l1 ++ l2 ++ (k, B) :: l3))).map
          (fun mesh => mesh.getNumVertexPositions) := by
    intro key
    rw [htab, find_numIndices_entriesFrom, find_eq_of_perm _ _ hnd hm key]
  refine ⟨mc, mc', pb, nb, h, h', ?_, ?_, hpb, by rw [hpl, hp], hnb, by rw [hnl, hn],
    ?_, hnum, ?_, ?_, ?_, ?_, ?_⟩
  · rw [hp]
    exact (List.Perm.map _ hm).sum_eq
  · rw [hn]
    exact (List.Perm.map _ hm).sum_eq
  · rw [htab, keys_entriesFrom]
    exact List.Perm.map Prod.fst hm
  · intro hlast
    have hk := hnum k
    rw [find_keepLast_later l1 l2 l3 k B hlast] at hk
    cases hb : find k mc.batchInfoMap with
    | none => rw [hb] at hk; cases hk
    | some b =>
      rw [hb] at hk
      refine ⟨b, rfl, ?_⟩
      simpa using hk
  · rw [hp, hp']
    exact (List.Perm.map _ hmm).sum_eq
  · rw [hn, hn']
    exact (List.Perm.map _ hmm).sum_eq
  · rw [htab, htab', keys_entriesFrom, keys_entriesFrom]
    exact List.Perm.map Prod.fst hmm
  · intro key
    rw [htab, htab', find_numIndices_entriesFrom, find_numIndices_entriesFrom,
      find_eq_of_perm _ _ hnd hmm key]

theorem duplicate_names_collapse_witness :
    IterationOrder List.reverse ∧ IterationOrder id ∧ (1 : MeshId) ∉ keys ([] : UnorderedMap Mesh) ∧
    ∃ mc mc',
      ofMeshList List.reverse true true
          ([(2, segment)] ++ (1, meshB) :: [] ++ (1, triangle) :: []) = .ok mc ∧
      ofMeshList id true true ([(2, segment)] ++ [] ++ (1, triangle) :: []) = .ok mc' ∧
      mc.totalPositionBytes = 60 ∧ mc.totalNormalBytes = 60 ∧
      (∃ b, find 1 mc.batchInfoMap = some b ∧ b.numIndices = 3) ∧
      mc.totalPositionBytes = mc'.totalPositionBytes ∧
      mc.totalNormalBytes = mc'.totalNormalBytes := by
  refine ⟨fun m => List.reverse_perm m, fun m => List.Perm.refl m, by decide, ?_⟩
  obtain ⟨_, _, mc, mc', _, _, h, h', hp, hn, _, _, _, _, _, _, hB, hpe, hne, _, _⟩ :=
    duplicate_names_collapse List.reverse id (fun m => List.reverse_perm m)
      (fun m => List.Perm.refl m) [(2, segment)] [] [] 1 meshB triangle
  refine ⟨mc, mc', h, h', ?_, ?_, hB (by decide), hpe, hne⟩
  · rw [hp]; decide
  · rw [hn]; decide

theorem ofFileList_eq_ofMeshList (load : FileName → Mesh)
    (order : UnorderedMap Mesh → UnorderedMap Mesh) (pa na : Bool)
    (list : List (MeshId × FileName)) :
    ofFileList load order pa na list
      = ofMeshList order pa na (list.map fun key_value => (key_value.1, load key_value.2)) :=
  rfl

end GlUtils
